import Mathlib

/-!
# godocs: the struct-field type resolver and the struct-tag reader

A shallow embedding of `parser/parser.go`:

* the part of `go/ast` that `Parser.getTypeInfo` dispatches on (`Expr`, `Ident`,
  `Object`, `Field`);
* `Parser.getTypeInfo`, the recursive resolver of a field's type expression;
* `Parser.parseStructTag`, together with the standard-library routines it calls
  (`strings.Trim`, `reflect.StructTag.Lookup`, `strconv.Unquote`, `strings.Split`);
* `Parser.getFieldName` and `Parser.ParsePackage`, the latter on files given as the
  type declarations that `ast.Inspect` visits.

Go strings are modelled as Lean strings.  A tag literal is source text of a file
that was parsed successfully, hence valid UTF-8; every delimiter the byte-level
scanners of the standard library look at is ASCII, so scanning code point by code
point visits the same delimiters as scanning byte by byte.
-/

namespace Godocs

/-! ## The syntax tree (`go/ast`) -/

/-- The kinds of object an identifier can be resolved to (`ast.ObjKind`). -/
inductive ObjKind where
  | Bad | Pkg | Con | Typ | Var | Fun | Lbl
  deriving DecidableEq, Repr

/-- A resolved language entity (`ast.Object`): its kind and its name. -/
structure Object where
  kind : ObjKind
  name : String
  deriving DecidableEq, Repr

/-- An identifier node (`ast.Ident`); `obj = none` is Go's `Obj == nil`, the state of
an identifier the parser did not resolve in the file (for instance `int`). -/
structure Ident where
  name : String
  obj : Option Object
  deriving DecidableEq, Repr

mutual
/-- The expression and type nodes of `go/ast` (every concrete type implementing
`ast.Expr`).  A function literal keeps its signature only. -/
inductive Expr where
  | badExpr : Expr
  | ident (id : Ident) : Expr
  | ellipsis (elt : Option Expr) : Expr
  | basicLit (kind : Nat) (value : String) : Expr
  | funcLit (type : Expr) : Expr
  | compositeLit (type : Option Expr) (elts : List Expr) : Expr
  | parenExpr (x : Expr) : Expr
  | selectorExpr (x : Expr) (sel : Ident) : Expr
  | indexExpr (x : Expr) (index : Expr) : Expr
  | indexListExpr (x : Expr) (indices : List Expr) : Expr
  | sliceExpr (x : Expr) (low high max : Option Expr) (slice3 : Bool) : Expr
  | typeAssertExpr (x : Expr) (type : Option Expr) : Expr
  | callExpr (fn : Expr) (args : List Expr) : Expr
  | starExpr (x : Expr) : Expr
  | unaryExpr (op : Nat) (x : Expr) : Expr
  | binaryExpr (x : Expr) (op : Nat) (y : Expr) : Expr
  | keyValueExpr (key : Expr) (value : Expr) : Expr
  | arrayType (len : Option Expr) (elt : Expr) : Expr
  | structType (fields : List Field) (incomplete : Bool) : Expr
  | funcType (typeParams : Option (List Field)) (params : List Field)
      (results : Option (List Field)) : Expr
  | interfaceType (methods : List Field) (incomplete : Bool) : Expr
  | mapType (key : Expr) (value : Expr) : Expr
  | chanType (dir : Nat) (value : Expr) : Expr
/-- One entry of a field list (`ast.Field`): the declared names, the shared type, the
tag literal's text (`Tag.Value`, `none` for `Tag == nil`) and the text of the trailing
comment group (`none` for `Comment == nil`). -/
inductive Field where
  | mk (names : List Ident) (type : Expr) (tag : Option String)
      (comment : Option String) : Field
end

/-- The dynamic type of an expression node, which is what a Go type switch and the
`%T` verb look at. -/
inductive ExprKind where
  | BadExpr | Ident | Ellipsis | BasicLit | FuncLit | CompositeLit | ParenExpr
  | SelectorExpr | IndexExpr | IndexListExpr | SliceExpr | TypeAssertExpr | CallExpr
  | StarExpr | UnaryExpr | BinaryExpr | KeyValueExpr | ArrayType | StructType
  | FuncType | InterfaceType | MapType | ChanType
  deriving DecidableEq, Repr

/-- The dynamic type of a node. -/
def Expr.kind : Expr → ExprKind
  | .badExpr => .BadExpr
  | .ident _ => .Ident
  | .ellipsis _ => .Ellipsis
  | .basicLit _ _ => .BasicLit
  | .funcLit _ => .FuncLit
  | .compositeLit _ _ => .CompositeLit
  | .parenExpr _ => .ParenExpr
  | .selectorExpr _ _ => .SelectorExpr
  | .indexExpr _ _ => .IndexExpr
  | .indexListExpr _ _ => .IndexListExpr
  | .sliceExpr _ _ _ _ _ => .SliceExpr
  | .typeAssertExpr _ _ => .TypeAssertExpr
  | .callExpr _ _ => .CallExpr
  | .starExpr _ => .StarExpr
  | .unaryExpr _ _ => .UnaryExpr
  | .binaryExpr _ _ _ => .BinaryExpr
  | .keyValueExpr _ _ => .KeyValueExpr
  | .arrayType _ _ => .ArrayType
  | .structType _ _ => .StructType
  | .funcType _ _ _ => .FuncType
  | .interfaceType _ _ => .InterfaceType
  | .mapType _ _ => .MapType
  | .chanType _ _ => .ChanType

/-- What `fmt.Sprintf("%T", expr)` prints for a node of the given dynamic type: the
name of the pointer type that implements `ast.Expr`. -/
def ExprKind.typeName : ExprKind → String
  | .BadExpr => "*ast.BadExpr"
  | .Ident => "*ast.Ident"
  | .Ellipsis => "*ast.Ellipsis"
  | .BasicLit => "*ast.BasicLit"
  | .FuncLit => "*ast.FuncLit"
  | .CompositeLit => "*ast.CompositeLit"
  | .ParenExpr => "*ast.ParenExpr"
  | .SelectorExpr => "*ast.SelectorExpr"
  | .IndexExpr => "*ast.IndexExpr"
  | .IndexListExpr => "*ast.IndexListExpr"
  | .SliceExpr => "*ast.SliceExpr"
  | .TypeAssertExpr => "*ast.TypeAssertExpr"
  | .CallExpr => "*ast.CallExpr"
  | .StarExpr => "*ast.StarExpr"
  | .UnaryExpr => "*ast.UnaryExpr"
  | .BinaryExpr => "*ast.BinaryExpr"
  | .KeyValueExpr => "*ast.KeyValueExpr"
  | .ArrayType => "*ast.ArrayType"
  | .StructType => "*ast.StructType"
  | .FuncType => "*ast.FuncType"
  | .InterfaceType => "*ast.InterfaceType"
  | .MapType => "*ast.MapType"
  | .ChanType => "*ast.ChanType"

/-! ## `Parser.getTypeInfo` -/

/-- The test `t.Obj != nil && t.Obj.Kind == ast.Typ` of the identifier case. -/
def Ident.isTyp (t : Ident) : Bool :=
  match t.obj with
  | none => false
  | some o => decide (o.kind = ObjKind.Typ)

/-- The resolver `Parser.getTypeInfo`: the triple `(typeName, rawType, isStruct)` of a
field's type expression.  The receiver is not read, so it is not a parameter. -/
def getTypeInfo : Expr → String × String × Bool
  | .ident t => (t.name, t.name, t.isTyp)
  | .starExpr x =>
    let (baseType, rawT, isS) := getTypeInfo x
    if isS then ("*" ++ baseType, rawT, true) else ("*" ++ baseType, rawT, false)
  | .arrayType _ elt =>
    let (baseType, rawT, isS) := getTypeInfo elt
    ("[]" ++ baseType, rawT, isS)
  | .mapType key value =>
    let (keyType, _, _) := getTypeInfo key
    let (valueType, rawT, isS) := getTypeInfo value
    ("map[" ++ keyType ++ "]" ++ valueType, rawT, isS)
  | .selectorExpr x sel =>
    let (pkg, _, _) := getTypeInfo x
    (pkg ++ "." ++ sel.name, sel.name, false)
  | expr => (expr.kind.typeName, "", false)

/-- The resolver run with a bound on the depth of its call stack: `none` when the
bound is reached before the call returns.  Same cases as `getTypeInfo`. -/
def getTypeInfoFuel : Nat → Expr → Option (String × String × Bool)
  | 0, _ => none
  | _ + 1, .ident t => some (t.name, t.name, t.isTyp)
  | n + 1, .starExpr x =>
    match getTypeInfoFuel n x with
    | none => none
    | some (baseType, rawT, isS) =>
      if isS then some ("*" ++ baseType, rawT, true) else some ("*" ++ baseType, rawT, false)
  | n + 1, .arrayType _ elt =>
    match getTypeInfoFuel n elt with
    | none => none
    | some (baseType, rawT, isS) => some ("[]" ++ baseType, rawT, isS)
  | n + 1, .mapType key value =>
    match getTypeInfoFuel n key with
    | none => none
    | some (keyType, _, _) =>
      match getTypeInfoFuel n value with
      | none => none
      | some (valueType, rawT, isS) => some ("map[" ++ keyType ++ "]" ++ valueType, rawT, isS)
  | n + 1, .selectorExpr x sel =>
    match getTypeInfoFuel n x with
    | none => none
    | some (pkg, _, _) => some (pkg ++ "." ++ sel.name, sel.name, false)
  | _ + 1, expr => some (expr.kind.typeName, "", false)

/-- The arguments of the recursive calls that one call of `getTypeInfo` makes. -/
def recursiveCalls : Expr → List Expr
  | .starExpr x => [x]
  | .arrayType _ elt => [elt]
  | .mapType key value => [key, value]
  | .selectorExpr x _ => [x]
  | _ => []

/-- The nesting depth of an expression in the wrappers the resolver descends into
(pointer, slice/array, map, selector). -/
def nesting : Expr → Nat
  | .starExpr x => nesting x + 1
  | .arrayType _ elt => nesting elt + 1
  | .mapType key value => max (nesting key) (nesting value) + 1
  | .selectorExpr x _ => nesting x + 1
  | _ => 0

/-- The wrappers through which `rawType` and `isStruct` are handed on: pointer,
slice/array (with its length expression, if any) and map value (with the key type). -/
inductive Wrapper where
  | pointer : Wrapper
  | array (len : Option Expr) : Wrapper
  | mapValue (key : Expr) : Wrapper

/-- Wrap an expression once. -/
def Wrapper.apply : Wrapper → Expr → Expr
  | .pointer, e => .starExpr e
  | .array len, e => .arrayType len e
  | .mapValue key, e => .mapType key e

/-- Wrap an expression by a list of wrappers, the head of the list outermost. -/
def wrapAll (ws : List Wrapper) (e : Expr) : Expr :=
  ws.foldr Wrapper.apply e

/-- An identifier the parser left unresolved. -/
def unresolved (name : String) : Expr := .ident ⟨name, none⟩

/-- An identifier resolved to a type declared in the same file. -/
def localType (name : String) : Expr := .ident ⟨name, some ⟨ObjKind.Typ, name⟩⟩

/-! ## Standard-library routines used by the tag reader -/

/-- `strings.Trim(s, cutset)`: `s` without its leading and trailing characters that
occur in `cutset`. -/
def Trim (s cutset : String) : String :=
  String.mk (((s.data.dropWhile cutset.data.contains).reverse.dropWhile
    cutset.data.contains).reverse)

/-- The pieces of `s` between the occurrences of the separator; never empty. -/
def splitChars (sep : Char) : List Char → List (List Char)
  | [] => [[]]
  | c :: cs =>
    if c = sep then [] :: splitChars sep cs
    else
      match splitChars sep cs with
      | [] => [[c]]
      | p :: ps => (c :: p) :: ps

/-- `strings.Split(s, sep)` for a separator of one character, which is how the tag
reader calls it (`","`). -/
def Split (s : String) (sep : Char) : List String :=
  (splitChars sep s.data).map String.mk

/-- The digit value of a hexadecimal digit (`unhex` of `strconv`). -/
def unhex (c : Char) : Option Nat :=
  if 48 ≤ c.toNat ∧ c.toNat ≤ 57 then some (c.toNat - 48)
  else if 97 ≤ c.toNat ∧ c.toNat ≤ 102 then some (c.toNat - 97 + 10)
  else if 65 ≤ c.toNat ∧ c.toNat ≤ 70 then some (c.toNat - 65 + 10)
  else none

/-- The loop `v = v<<4 | x` over hexadecimal digits; `none` at a character that is not
one. -/
def hexDigits : List Char → Nat → Option Nat
  | [], v => some v
  | c :: cs, v =>
    match unhex c with
    | none => none
    | some x => hexDigits cs (v * 16 + x)

/-- The loop `v = (v << 3) | x` over octal digits; `none` at a character that is not
one. -/
def octDigits : List Char → Nat → Option Nat
  | [], v => some v
  | c :: cs, v =>
    if 48 ≤ c.toNat ∧ c.toNat ≤ 55 then octDigits cs (v * 8 + (c.toNat - 48)) else none

/-- `utf8.ValidRune`: in range and not a surrogate half. -/
def validRune (v : Nat) : Bool :=
  decide (v < 0xD800) || (decide (0xDFFF < v) && decide (v ≤ 0x10FFFF))

/-- The number of digits after `\x`, `\u`, `\U`. -/
def hexLength (c : Char) : Nat :=
  if c = 'x' then 2 else if c = 'u' then 4 else 8

/-- The "hard case" of `strconv.UnquoteChar`: the escape sequence that follows a
backslash, `e` being the character after the backslash and `rest` the text after `e`.
The result is the decoded character, whether it is flagged multibyte, and how many
characters of `rest` the escape takes; `none` for `ErrSyntax`.  A byte of value 128 or
more written as `\x..` or as an octal escape is kept as the character with that code. -/
def unquoteEscape (e : Char) (rest : List Char) (quote : Char) : Option (Char × Bool × Nat) :=
  if e = 'a' then some (Char.ofNat 7, false, 0)
  else if e = 'b' then some (Char.ofNat 8, false, 0)
  else if e = 'f' then some (Char.ofNat 12, false, 0)
  else if e = 'n' then some (Char.ofNat 10, false, 0)
  else if e = 'r' then some (Char.ofNat 13, false, 0)
  else if e = 't' then some (Char.ofNat 9, false, 0)
  else if e = 'v' then some (Char.ofNat 11, false, 0)
  else if e = 'x' ∨ e = 'u' ∨ e = 'U' then
    if rest.length < hexLength e then none
    else
      match hexDigits (rest.take (hexLength e)) 0 with
      | none => none
      | some v =>
        if e = 'x' then some (Char.ofNat v, false, hexLength e)
        else if validRune v then some (Char.ofNat v, true, hexLength e)
        else none
  else if 48 ≤ e.toNat ∧ e.toNat ≤ 55 then
    if rest.length < 2 then none
    else
      match octDigits (rest.take 2) (e.toNat - 48) with
      | none => none
      | some v => if 255 < v then none else some (Char.ofNat v, false, 2)
  else if e = '\\' then some ('\\', false, 0)
  else if e = Char.ofNat 39 ∨ e = '"' then
    if e ≠ quote then none else some (e, false, 0)
  else none

/-- `strconv.UnquoteChar(s, quote)`: the first character or escape sequence of `s`
decoded, whether it is flagged multibyte, and the rest of `s`; `none` for `ErrSyntax`. -/
def UnquoteChar (s : List Char) (quote : Char) : Option (Char × Bool × List Char) :=
  match s with
  | [] => none
  | c :: tl =>
    if c = quote ∧ (quote = Char.ofNat 39 ∨ quote = '"') then none
    else if 128 ≤ c.toNat then some (c, true, tl)
    else if c ≠ '\\' then some (c, false, tl)
    else
      match tl with
      | [] => none
      | e :: rest =>
        match unquoteEscape e rest quote with
        | none => none
        | some (value, multibyte, n) => some (value, multibyte, rest.drop n)

/-- The decoding loop of `strconv.unquote` for a quoted string with escape sequences:
`for len(in) > 0 && in[0] != quote`, with the text decoded so far in `buf`.  The
outer `none` means the bound on the number of iterations was reached; the inner
`none` is `ErrSyntax`; otherwise the decoded text and the input left at loop exit. -/
def unquoteLoop (quote : Char) : Nat → List Char → List Char →
    Option (Option (List Char × List Char))
  | 0, _, _ => none
  | fuel + 1, inp, buf =>
    match inp with
    | [] => some (some (buf, inp))
    | c :: _ =>
      if c = quote then some (some (buf, inp))
      else
        match UnquoteChar inp quote with
        | none => some none
        | some (r, _, rem) =>
          if c = '\n' then some none else unquoteLoop quote fuel rem (buf ++ [r])

/-- `strconv.Unquote(s)` for `s` in double quotes.  The outer `none` means that the
model has no answer: the bound of the decoding loop was reached, or `s` starts with a
back quote or a single quote (the raw-string and rune forms, which are not modelled and
which `Lookup` never passes).  The inner `none` is `ErrSyntax`. -/
def Unquote (s : List Char) : Option (Option (List Char)) :=
  if s.length < 2 then some none
  else
    match s with
    | [] => some none
    | quote :: tl =>
      if quote = '"' then
        if tl.indexOf quote < tl.length then
          let e := tl.indexOf quote + 2
          if ¬ (s.take e).contains '\\' ∧ ¬ (s.take e).contains '\n' then
            if (s.drop e).length > 0 then some none else some (some ((s.take (e - 1)).drop 1))
          else
            match unquoteLoop quote (tl.length + 1) tl [] with
            | none => none
            | some none => some none
            | some (some (buf, inp)) =>
              match inp with
              | [] => some none
              | c :: rem =>
                if c ≠ quote then some none
                else if rem.length > 0 then some none
                else some (some buf)
        else some none
      else if quote = "`".get 0 ∨ quote = Char.ofNat 39 then none
      else some none

/-! ## `reflect.StructTag.Lookup` -/

/-- The first loop of an iteration: `for i < len(tag) && tag[i] == ' '`, followed by
`tag = tag[i:]`. -/
def skipSpaces (tag : List Char) : List Char :=
  tag.dropWhile (fun c => c = ' ')

/-- The test of the second loop: the character can be part of a key. -/
def isKeyChar (c : Char) : Bool :=
  decide (32 < c.toNat) && c != ':' && c != '"' && decide (c.toNat ≠ 0x7f)

/-- The second loop: the index `i` of the first character that cannot be part of a
key. -/
def scanKey (tag : List Char) : Nat :=
  (tag.takeWhile isKeyChar).length

/-- The third loop, `for i < len(tag) && tag[i] != '"'`, skipping the character after a
backslash: run on `tag[i:]` it returns the index at which the loop stops, which is
`len(tag)` or more when there is no closing quote. -/
def scanQuoted : List Char → Nat → Nat
  | [], i => i
  | c :: rest, i =>
    if c = '"' then i
    else if c = '\\' then
      match rest with
      | [] => i + 2
      | _ :: rest2 => scanQuoted rest2 (i + 2)
    else scanQuoted rest (i + 1)

/-- The loop `for tag != ""` of `reflect.StructTag.Lookup`, run for at most the given
number of iterations.  The outer `none` means the bound was reached (or `Unquote` had
no answer); `some none` is Go's `("", false)` and `some (some v)` is `(v, true)`. -/
def lookupLoop : Nat → List Char → List Char → Option (Option (List Char))
  | 0, _, _ => none
  | fuel + 1, tag0, key =>
    if tag0 = [] then some none
    else
      let tag1 := skipSpaces tag0
      if tag1 = [] then some none
      else
        let i := scanKey tag1
        if i = 0 ∨ i + 1 ≥ tag1.length ∨ tag1[i]? ≠ some ':' ∨ tag1[i + 1]? ≠ some '"' then
          some none
        else
          let name := tag1.take i
          let tag2 := tag1.drop (i + 1)
          let j := scanQuoted (tag2.drop 1) 1
          if j ≥ tag2.length then some none
          else
            let qvalue := tag2.take (j + 1)
            let tag3 := tag2.drop (j + 1)
            if key = name then
              match Unquote qvalue with
              | none => none
              | some none => some none
              | some (some value) => some (some value)
            else lookupLoop fuel tag3 key

/-- `reflect.StructTag(tag).Lookup(key)`; every iteration of the loop shortens the
tag, so `len(tag) + 1` iterations are enough. -/
def Lookup (tag key : String) : Option (Option String) :=
  (lookupLoop (tag.data.length + 1) tag.data key.data).map (Option.map String.mk)

/-! ## `Parser.parseStructTag` -/

/-- A Go `map[string]string`, as the list of its entries in the order the keys were
first stored. -/
abbrev TagMap := List (String × String)

/-- The lookup `v, ok := m[k]`. -/
def TagMap.get? (m : TagMap) (k : String) : Option String :=
  List.lookup k m

/-- The assignment `m[k] = v`. -/
def TagMap.set (m : TagMap) (k v : String) : TagMap :=
  if (List.lookup k m).isSome then m.map (fun p => if p.1 = k then (k, v) else p)
  else m ++ [(k, v)]

/-- The keys the loop of `parseStructTag` ranges over. -/
def recognizedKeys : List String := ["json", "xml", "yaml", "db"]

/-- The body of the loop of `parseStructTag` for one key.  `none` means that the body
does not complete: the lookup has no answer, or `parts[0]` is out of range. -/
def parseStructTagStep (structTag : String) (tags : TagMap) (key : String) :
    Option TagMap :=
  match Lookup structTag key with
  | none => none
  | some none => some tags
  | some (some value) =>
    let parts := Split value ','
    match parts[0]? with
    | none => none
    | some part => some (tags.set key part)

/-- The tag reader `Parser.parseStructTag`; `none` means that the call does not return
a mapping.  The receiver is not read, so it is not a parameter. -/
def parseStructTag (tag : String) : Option TagMap :=
  if tag = "" then some []
  else
    let structTag := Trim tag "`"
    recognizedKeys.foldlM (parseStructTagStep structTag) []


/-! ## Notions used to state the properties of the tag reader -/

/-- The part of a tag value before its first comma (the whole value when it has no
comma). -/
def firstSegment (value : String) : String :=
  String.mk (value.data.takeWhile (fun c => c ≠ ','))

/-- The entry the tag reader stores for a key: the first segment of the value that the
lookup of the key in the struct tag yields, if the lookup succeeds. -/
def storedValue (structTag key : String) : Option String :=
  match Lookup structTag key with
  | some (some value) => some (firstSegment value)
  | _ => none


/-- The tag convention of package `reflect`, run for at most the given number of pairs:
the text is a concatenation of optionally space-separated `key:"value"` pairs, each key
a non-empty run of characters other than space, colon, double quote and control
characters, each value a double-quoted Go string literal.  This is the notion of a
well-formed tag used to state the claim on malformed tags; it is not part of the
program. -/
def wellFormedPairs : Nat → List Char → Bool
  | 0, _ => false
  | fuel + 1, tag0 =>
    let tag1 := skipSpaces tag0
    if tag1 = [] then true
    else
      let i := scanKey tag1
      if i = 0 ∨ tag1[i]? ≠ some ':' ∨ tag1[i + 1]? ≠ some '"' then false
      else
        let tag2 := tag1.drop (i + 1)
        let j := scanQuoted (tag2.drop 1) 1
        if j ≥ tag2.length then false
        else
          match Unquote (tag2.take (j + 1)) with
          | some (some _) => wellFormedPairs fuel (tag2.drop (j + 1))
          | _ => false

/-- A tag literal is well-formed when its text between the back quotes follows the
convention. -/
def wellFormedTag (tag : String) : Bool :=
  wellFormedPairs ((Trim tag "`").data.length + 1) (Trim tag "`").data

/-- The text starts, after leading spaces, with the outline of a `key:"value"` pair: a
non-empty key, a colon, a double quote and, further on, a closing double quote that is
not escaped by a backslash. -/
def leadingPair (tag : List Char) : Bool :=
  let tag1 := skipSpaces tag
  let i := scanKey tag1
  decide (0 < i) && decide (tag1[i]? = some ':') && decide (tag1[i + 1]? = some '"') &&
    decide (scanQuoted ((tag1.drop (i + 1)).drop 1) 1 < (tag1.drop (i + 1)).length)


/-! ## The model built by `Parser.ParsePackage` -/

/-- The names an entry of a field list declares (`field.Names`). -/
def Field.names : Field → List Ident
  | .mk names _ _ _ => names

/-- The type expression of an entry of a field list (`field.Type`). -/
def Field.type : Field → Expr
  | .mk _ type _ _ => type

/-- The text of the tag literal of an entry (`field.Tag.Value`), `none` for no tag. -/
def Field.tag : Field → Option String
  | .mk _ _ tag _ => tag

/-- The text of the trailing comment of an entry (`field.Comment.Text()`), `none` for
no comment group. -/
def Field.comment : Field → Option String
  | .mk _ _ _ comment => comment

/-- A type declaration node (`ast.TypeSpec`): the text of its own doc comment group
(`Doc.Text()`, `none` for `Doc == nil`), the declared name, whether it is an alias
declaration `type T = ...` (`Assign` is set), and the type expression. -/
structure TypeSpec where
  doc : Option String
  name : Ident
  assign : Bool
  type : Expr

/-- The record `StructField`; `TypeName` is its field `Type`. -/
structure StructField where
  Name : String
  TypeName : String
  RawType : String
  IsStruct : Bool
  Exported : Bool
  Comment : String
  Tags : TagMap
  deriving DecidableEq, Repr

/-- The record `StructInfo`. -/
structure StructInfo where
  Name : String
  Comment : String
  Fields : List StructField
  Exported : Bool
  deriving DecidableEq, Repr

/-- The record `DocOptions`. -/
structure DocOptions where
  Title : String
  ShowExported : Bool
  deriving DecidableEq, Repr

/-- The state of a `Parser` that extraction reads: the tag that names the fields and
the options of the document.  The file set is not modelled. -/
structure Parser where
  fieldNameTag : String
  docOptions : DocOptions
  deriving DecidableEq, Repr

/-- The constructor `NewParser`. -/
def NewParser : Parser :=
  ⟨"", ⟨"Go Structs Documentation", true⟩⟩

/-- The setter `Parser.SetFieldNameTag`. -/
def Parser.SetFieldNameTag (p : Parser) (tag : String) : Parser :=
  ⟨tag, p.docOptions⟩

/-- The upper-case letters of Latin-1, which `unicode.IsUpper` reads off its
`properties` table: `A`–`Z`, `À`–`Ö` and `Ø`–`Þ`. -/
def latin1Upper (c : Char) : Bool :=
  (decide (0x41 ≤ c.toNat) && decide (c.toNat ≤ 0x5A)) ||
    (decide (0xC0 ≤ c.toNat) && decide (c.toNat ≤ 0xD6)) ||
    (decide (0xD8 ≤ c.toNat) && decide (c.toNat ≤ 0xDE))

/-- `unicode.IsUpper(r)`.  Beyond Latin-1 the library consults its range table
`unicode.Upper`, which is the parameter `upper`. -/
def IsUpper (upper : Char → Bool) (c : Char) : Bool :=
  if c.toNat ≤ 0xFF then latin1Upper c else upper c

/-- `token.IsExported(name)`, which is `Ident.IsExported`: the first character of the
name is an upper-case letter.  For the empty name the decoded rune is `RuneError`,
which is not upper case. -/
def IsExported (upper : Char → Bool) (name : String) : Bool :=
  match name.data with
  | [] => false
  | c :: _ => IsUpper upper c

/-- A stand-in for the range table `unicode.Upper` in examples whose identifiers start
with a Latin-1 character, for which the table is not consulted. -/
def noTable : Char → Bool := fun _ => false

/-- `unicode.IsSpace`. -/
def isSpace (c : Char) : Bool :=
  decide (c.toNat = 9) || decide (c.toNat = 10) || decide (c.toNat = 11) ||
    decide (c.toNat = 12) || decide (c.toNat = 13) || decide (c.toNat = 32) ||
    decide (c.toNat = 0x85) || decide (c.toNat = 0xA0) || decide (c.toNat = 0x1680) ||
    (decide (0x2000 ≤ c.toNat) && decide (c.toNat ≤ 0x200A)) ||
    decide (c.toNat = 0x2028) || decide (c.toNat = 0x2029) || decide (c.toNat = 0x202F) ||
    decide (c.toNat = 0x205F) || decide (c.toNat = 0x3000)

/-- `strings.TrimSpace(s)`. -/
def TrimSpace (s : String) : String :=
  String.mk (((s.data.dropWhile isSpace).reverse.dropWhile isSpace).reverse)

/-- The method `Parser.getFieldName`; `none` means that the call does not return (the
tag reader did not). -/
def getFieldName (p : Parser) (field : Field) (origName : String) : Option String :=
  if p.fieldNameTag = "" then some origName
  else
    match field.tag with
    | some value =>
      match parseStructTag value with
      | none => none
      | some tags =>
        match tags.get? p.fieldNameTag with
        | some tagValue => if tagValue ≠ "" then some tagValue else some origName
        | none => some origName
    | none => some origName

/-- The body of the inner loop of `ParsePackage`: the `StructField` built for one
declared name of a field-list entry. -/
def fieldInfo (upper : Char → Bool) (p : Parser) (field : Field) (name : Ident) :
    Option StructField :=
  let (typeName, rawType, isStruct) := getTypeInfo field.type
  match getFieldName p field name.name with
  | none => none
  | some fieldName =>
    match (match field.tag with
        | some value => parseStructTag value
        | none => some []) with
    | none => none
    | some tags =>
      some {
        Name := fieldName
        TypeName := typeName
        RawType := rawType
        IsStruct := isStruct
        Exported := IsExported upper name.name
        Comment := match field.comment with
          | some text => TrimSpace text
          | none => ""
        Tags := tags }

/-- The inner loop `for _, name := range field.Names`, appending to the fields
collected so far. -/
def appendNames (upper : Char → Bool) (p : Parser) (field : Field)
    (fields : List StructField) : Option (List StructField) :=
  field.names.foldlM
    (fun acc name => (fieldInfo upper p field name).map (fun info => acc ++ [info])) fields

/-- The outer loop `for _, field := range structType.Fields.List`, starting from the
empty slice. -/
def structFields (upper : Char → Bool) (p : Parser) (fieldList : List Field) :
    Option (List StructField) :=
  fieldList.foldlM (fun acc field => appendNames upper p field acc) []

/-- The function that `ParsePackage` hands to `ast.Inspect`, at a type declaration
node: `structs` with the `StructInfo` of the node appended when the node declares an
exported name with a struct type, `structs` unchanged otherwise.  At every other kind
of node the function changes nothing. -/
def visitTypeSpec (upper : Char → Bool) (p : Parser) (structs : List StructInfo)
    (typeSpec : TypeSpec) : Option (List StructInfo) :=
  match typeSpec.type with
  | .structType fieldList _ =>
    if ¬ IsExported upper typeSpec.name.name then some structs
    else
      match structFields upper p fieldList with
      | none => none
      | some fields =>
        some (structs ++ [{
          Name := typeSpec.name.name
          Exported := true
          Fields := fields
          Comment := match typeSpec.doc with
            | some text => text
            | none => "" }])
  | _ => some structs

/-- The method `Parser.ParsePackage` on files that were read and parsed: each file is
given as the list of its type declaration nodes in the order in which `ast.Inspect`
reaches them, the files in the order of the directory walk.  `none` means that the
call does not return. -/
def ParsePackage (upper : Char → Bool) (p : Parser) (files : List (List TypeSpec)) :
    Option (List StructInfo) :=
  files.foldlM (fun structs file => file.foldlM (visitTypeSpec upper p) structs) []

/-- The field-list entry of one or more names sharing a type, with a tag literal or
none and a trailing comment or none. -/
def entry (names : List String) (type : Expr) (tag comment : Option String) : Field :=
  .mk (names.map (fun n => ⟨n, none⟩)) type tag comment

/-! ## Notions used to state the properties of extraction -/

/-- The declared names of a field list in source order, each with its entry. -/
def declared (fieldList : List Field) : List (Field × Ident) :=
  fieldList.flatMap (fun field => field.names.map (fun name => (field, name)))

/-- The declaration is one that extraction keeps: its type expression is a struct
type and its name is exported. -/
def retained (upper : Char → Bool) (typeSpec : TypeSpec) : Bool :=
  decide (typeSpec.type.kind = ExprKind.StructType) && IsExported upper typeSpec.name.name

/-- The expression under the pointer, slice/array and map-value wrappers. -/
def innermost : Expr → Expr
  | .starExpr x => innermost x
  | .arrayType _ elt => innermost elt
  | .mapType _ value => innermost value
  | e => e

/-- Some declaration of the file declares the name with a struct type. -/
def declaresStruct (file : List TypeSpec) (name : String) : Bool :=
  file.any (fun typeSpec =>
    decide (typeSpec.name.name = name) && decide (typeSpec.type.kind = ExprKind.StructType))

/-- The struct `User` of `example/models.go`, with the tags and trailing comments of
its fields. -/
def exampleUser : TypeSpec :=
  ⟨none, ⟨"User", none⟩, false, .structType [
    entry ["ID"] (unresolved "int") (some "`json:\"id\"`") none,
    entry ["Name"] (unresolved "string") (some "`json:\"name\"`") (some "用户名称\n"),
    entry ["Email"] (unresolved "string") (some "`json:\"email\"`") (some "电子邮箱\n"),
    entry ["age"] (unresolved "int") none (some "私有字段：年龄\n"),
    entry ["Address"] (.starExpr (localType "Address")) (some "`json:\"address\"`")
      (some "用户地址信息\n")] false⟩

/-- The struct `privateStruct` of `example/models.go`. -/
def examplePrivate : TypeSpec :=
  ⟨none, ⟨"privateStruct", none⟩, false,
    .structType [entry ["field"] (unresolved "string") none none] false⟩

/-- The record of the first end-to-end scenario: `User` with `ID int` and
`Name string`, the tag of `Name` being given. -/
def scenarioUser (nameTag : String) : TypeSpec :=
  ⟨none, ⟨"User", none⟩, false, .structType [
    entry ["ID"] (unresolved "int") none none,
    entry ["Name"] (unresolved "string") (some nameTag) none] false⟩

/-- A file that declares `type ID int` and a struct `User` with a field `Id ID`; the
parser resolves the field's type to the object of the declaration of `ID`. -/
def fileWithNamedInt : List TypeSpec :=
  [⟨none, ⟨"ID", some ⟨ObjKind.Typ, "ID"⟩⟩, false, unresolved "int"⟩,
   ⟨none, ⟨"User", some ⟨ObjKind.Typ, "User"⟩⟩, false,
     .structType [entry ["Id"] (localType "ID") none none] false⟩]

/-- The alias declaration `type Point = struct { X int }`. -/
def aliasPoint : TypeSpec :=
  ⟨none, ⟨"Point", none⟩, true, .structType [entry ["X"] (unresolved "int") none none] false⟩

/-- A struct `Mixed` with the field list `A, B int`, an embedded `io.Reader` and
`c string`. -/
def exampleMixed : TypeSpec :=
  ⟨none, ⟨"Mixed", none⟩, false, .structType [
    entry ["A", "B"] (unresolved "int") none none,
    entry [] (.selectorExpr (unresolved "io") ⟨"Reader", none⟩) none none,
    entry ["c"] (unresolved "string") none none] false⟩

/-! ## Lemmas on the resolver -/

theorem getTypeInfo_starExpr (x : Expr) :
    getTypeInfo (.starExpr x) =
      ("*" ++ (getTypeInfo x).1, (getTypeInfo x).2.1, (getTypeInfo x).2.2) := by
  rw [getTypeInfo]
  rcases h : getTypeInfo x with ⟨d, r, b⟩
  cases b <;> simp

theorem getTypeInfo_arrayType (len : Option Expr) (elt : Expr) :
    getTypeInfo (.arrayType len elt) =
      ("[]" ++ (getTypeInfo elt).1, (getTypeInfo elt).2.1, (getTypeInfo elt).2.2) := by
  rw [getTypeInfo]

theorem getTypeInfo_mapType (key value : Expr) :
    getTypeInfo (.mapType key value) =
      ("map[" ++ (getTypeInfo key).1 ++ "]" ++ (getTypeInfo value).1,
        (getTypeInfo value).2.1, (getTypeInfo value).2.2) := by
  rw [getTypeInfo]

theorem getTypeInfo_selectorExpr (x : Expr) (sel : Ident) :
    getTypeInfo (.selectorExpr x sel) =
      ((getTypeInfo x).1 ++ "." ++ sel.name, sel.name, false) := by
  rw [getTypeInfo]

theorem getTypeInfo_wrapper (w : Wrapper) (e : Expr) :
    (getTypeInfo (w.apply e)).2 = (getTypeInfo e).2 := by
  cases w with
  | pointer => simp [Wrapper.apply, getTypeInfo_starExpr]
  | array len => simp [Wrapper.apply, getTypeInfo_arrayType]
  | mapValue key => simp [Wrapper.apply, getTypeInfo_mapType]

theorem getTypeInfoFuel_eq (n : Nat) : ∀ e : Expr, nesting e < n →
    getTypeInfoFuel n e = some (getTypeInfo e) := by
  induction n with
  | zero => intro e h; omega
  | succ n ih =>
    intro e h
    cases e
    case starExpr x =>
      have hx : nesting x < n := by simp [nesting] at h; omega
      rw [getTypeInfoFuel, ih x hx, getTypeInfo_starExpr]
      rcases getTypeInfo x with ⟨d, r, b⟩
      cases b <;> simp
    case arrayType len elt =>
      have hx : nesting elt < n := by simp [nesting] at h; omega
      rw [getTypeInfoFuel, ih elt hx, getTypeInfo_arrayType]
    case mapType key value =>
      have hk : nesting key < n := by simp [nesting] at h; omega
      have hv : nesting value < n := by simp [nesting] at h; omega
      rw [getTypeInfoFuel, ih key hk, ih value hv, getTypeInfo_mapType]
    case selectorExpr x sel =>
      have hx : nesting x < n := by simp [nesting] at h; omega
      rw [getTypeInfoFuel, ih x hx, getTypeInfo_selectorExpr]
    all_goals simp [getTypeInfoFuel, getTypeInfo]

/-! ## The resolver, case by case -/

/-- C1: for an identifier, the display string and the raw name are the identifier's
name, and the record flag is true exactly when the identifier is resolved to an object
of kind `Typ`; for an unresolved identifier the flag is false. -/
theorem C1_getTypeInfo_ident (t : Ident) :
    (getTypeInfo (.ident t)).1 = t.name ∧ (getTypeInfo (.ident t)).2.1 = t.name ∧
      ((getTypeInfo (.ident t)).2.2 = true ↔ ∃ o, t.obj = some o ∧ o.kind = ObjKind.Typ) ∧
      (∀ name : String, getTypeInfo (unresolved name) = (name, name, false)) ∧
      getTypeInfo (unresolved "int") = ("int", "int", false) ∧
      getTypeInfo (unresolved "string") = ("string", "string", false) := by
  refine ⟨by simp [getTypeInfo], by simp [getTypeInfo], ?_, ?_, ?_, ?_⟩
  · rcases t with ⟨name, obj⟩
    cases obj <;> simp [getTypeInfo, Ident.isTyp]
  · intro name
    simp [getTypeInfo, unresolved, Ident.isTyp]
  · simp [getTypeInfo, unresolved, Ident.isTyp]
  · simp [getTypeInfo, unresolved, Ident.isTyp]

/-- C2: the resolver on pointer-to-`X` prefixes the display string of `X` with `*` and
hands on the raw name and the record flag of `X`; `*Address`, with `Address` resolved
to a type, gives `("*Address", "Address", true)`. -/
theorem C2_getTypeInfo_pointer (x : Expr) :
    (getTypeInfo (.starExpr x)).1 = "*" ++ (getTypeInfo x).1 ∧
      (getTypeInfo (.starExpr x)).2.1 = (getTypeInfo x).2.1 ∧
      (getTypeInfo (.starExpr x)).2.2 = (getTypeInfo x).2.2 ∧
      getTypeInfo (.starExpr (localType "Address")) = ("*Address", "Address", true) := by
  refine ⟨by rw [getTypeInfo_starExpr], by rw [getTypeInfo_starExpr],
    by rw [getTypeInfo_starExpr], by decide⟩

/-- C3: the resolver on a slice or array of `X`, whatever the length expression,
prefixes the display string of `X` with `[]` and hands on the raw name and the record
flag of `X`; `[4]Address` displays as `[]Address`. -/
theorem C3_getTypeInfo_array (len : Option Expr) (x : Expr) :
    (getTypeInfo (.arrayType len x)).1 = "[]" ++ (getTypeInfo x).1 ∧
      (getTypeInfo (.arrayType len x)).2.1 = (getTypeInfo x).2.1 ∧
      (getTypeInfo (.arrayType len x)).2.2 = (getTypeInfo x).2.2 ∧
      getTypeInfo (.arrayType (some (.basicLit 5 "4")) (localType "Address")) =
        ("[]Address", "Address", true) ∧
      getTypeInfo (.arrayType none (unresolved "int")) = ("[]int", "int", false) := by
  rw [getTypeInfo_arrayType]
  exact ⟨rfl, rfl, rfl, by decide, by decide⟩

/-- C4: the resolver on a map from `K` to `V` displays `map[` display(K) `]`
display(V) and hands on the raw name and the record flag of `V`; the key contributes
its display string only, so two keys with the same display string give the same
triple; `map[string]Contact` gives `("map[string]Contact", "Contact", true)`. -/
theorem C4_getTypeInfo_map (k v : Expr) :
    (getTypeInfo (.mapType k v)).1 = "map[" ++ (getTypeInfo k).1 ++ "]" ++ (getTypeInfo v).1 ∧
      (getTypeInfo (.mapType k v)).2.1 = (getTypeInfo v).2.1 ∧
      (getTypeInfo (.mapType k v)).2.2 = (getTypeInfo v).2.2 ∧
      (∀ k2 : Expr, (getTypeInfo k2).1 = (getTypeInfo k).1 →
        getTypeInfo (.mapType k2 v) = getTypeInfo (.mapType k v)) ∧
      getTypeInfo (.mapType (unresolved "string") (localType "Contact")) =
        ("map[string]Contact", "Contact", true) := by
  refine ⟨by rw [getTypeInfo_mapType], by rw [getTypeInfo_mapType],
    by rw [getTypeInfo_mapType], ?_, by decide⟩
  intro k2 h
  rw [getTypeInfo_mapType, getTypeInfo_mapType, h]

/-- Witness of C4: a key resolved to a type and an unresolved key of the same name
give the same triple for the map. -/
theorem C4_getTypeInfo_map_witness :
    getTypeInfo (.mapType (localType "K") (localType "Contact")) =
      getTypeInfo (.mapType (unresolved "K") (localType "Contact")) :=
  (C4_getTypeInfo_map (unresolved "K") (localType "Contact")).2.2.2.1 (localType "K")
    (by decide)

/-- C5: the resolver on a selector `pkg.T` whose operand is the identifier `pkg`
displays `pkg.T`, gives the raw name `T` and the record flag false, whatever `pkg` and
`T` are resolved to; `otherpkg.Thing` gives `("otherpkg.Thing", "Thing", false)`. -/
theorem C5_getTypeInfo_selector (pkg sel : Ident) :
    getTypeInfo (.selectorExpr (.ident pkg) sel) =
        (pkg.name ++ "." ++ sel.name, sel.name, false) ∧
      getTypeInfo (.selectorExpr (unresolved "otherpkg") ⟨"Thing", none⟩) =
        ("otherpkg.Thing", "Thing", false) := by
  refine ⟨?_, by decide⟩
  rw [getTypeInfo_selectorExpr]
  simp [getTypeInfo]

/-- C6: the resolver returns a triple for every expression: a call stack of depth
`nesting e + 1` (or any larger bound) is enough for the call to return, with the
result `getTypeInfo e`; and every recursive call is made on an expression of strictly
smaller nesting depth. -/
theorem C6_getTypeInfo_total (e : Expr) :
    (∀ n : Nat, nesting e < n → getTypeInfoFuel n e = some (getTypeInfo e)) ∧
      (∀ c : Expr, c ∈ recursiveCalls e → nesting c < nesting e) := by
  refine ⟨fun n h => getTypeInfoFuel_eq n e h, ?_⟩
  intro c hc
  cases e <;> simp [recursiveCalls] at hc
  case starExpr x => subst hc; simp [nesting]
  case arrayType len elt => subst hc; simp [nesting]
  case selectorExpr x sel => subst hc; simp [nesting]
  case mapType key value =>
    rcases hc with hc | hc <;> subst hc <;> simp [nesting] <;> omega

/-- Witness of C6: `map[string]*[]pkg.T` is resolved within a call stack of depth 5, and
the value of the map, on which the resolver recurses, is nested less deeply. -/
theorem C6_getTypeInfo_total_witness :
    getTypeInfoFuel 5 (.mapType (unresolved "string")
        (.starExpr (.arrayType none (.selectorExpr (unresolved "pkg") ⟨"T", none⟩)))) =
      some ("map[string]*[]pkg.T", "T", false) ∧
    nesting (.starExpr (.arrayType none (.selectorExpr (unresolved "pkg") ⟨"T", none⟩))) <
      nesting (.mapType (unresolved "string")
        (.starExpr (.arrayType none (.selectorExpr (unresolved "pkg") ⟨"T", none⟩)))) :=
  ⟨((C6_getTypeInfo_total _).1 5 (by decide)).trans (by decide),
    (C6_getTypeInfo_total _).2 _ (by simp [recursiveCalls])⟩

/-- C7: through any finite nesting of pointer, slice/array and map-value wrappers
around an identifier `T`, in any order, the raw name is the name of `T` and the record
flag is that of `T`; pointer to slice of `Address` still gives `Address` and true. -/
theorem C7_getTypeInfo_wrappers (ws : List Wrapper) (t : Ident) :
    (getTypeInfo (wrapAll ws (.ident t))).2.1 = t.name ∧
      (getTypeInfo (wrapAll ws (.ident t))).2.2 = (getTypeInfo (.ident t)).2.2 ∧
      getTypeInfo (wrapAll [.pointer, .array none] (localType "Address")) =
        ("*[]Address", "Address", true) := by
  have h : (getTypeInfo (wrapAll ws (.ident t))).2 = (getTypeInfo (.ident t)).2 := by
    induction ws with
    | nil => rfl
    | cons w ws ih =>
      show (getTypeInfo (w.apply (wrapAll ws (.ident t)))).2 = _
      rw [getTypeInfo_wrapper, ih]
  refine ⟨?_, by rw [h], by decide⟩
  rw [h]
  simp [getTypeInfo]

/-- C8: for an expression of any other dynamic type than identifier, pointer,
slice/array, map and selector, the raw name is empty, the record flag is false, and the
display string is the name of the node's dynamic type, hence the same for two
expressions of the same kind. -/
theorem C8_getTypeInfo_fallback (e : Expr)
    (h : e.kind ∉ [ExprKind.Ident, ExprKind.StarExpr, ExprKind.ArrayType, ExprKind.MapType,
      ExprKind.SelectorExpr]) :
    getTypeInfo e = (e.kind.typeName, "", false) ∧
      (∀ e2 : Expr, e2.kind = e.kind → (getTypeInfo e2).1 = (getTypeInfo e).1) := by
  have key : ∀ a : Expr, a.kind ∉ [ExprKind.Ident, ExprKind.StarExpr, ExprKind.ArrayType,
      ExprKind.MapType, ExprKind.SelectorExpr] → getTypeInfo a = (a.kind.typeName, "", false) := by
    intro a ha
    cases a <;> simp [Expr.kind] at ha <;> simp [getTypeInfo, Expr.kind]
  refine ⟨key e h, ?_⟩
  intro e2 h2
  rw [key e h, key e2 (by rw [h2]; exact h), h2]

/-- Witness of C8: an empty interface type and an interface type declared incomplete
both display as the name of the interface node type. -/
theorem C8_getTypeInfo_fallback_witness :
    getTypeInfo (.interfaceType [] false) = ("*ast.InterfaceType", "", false) ∧
      (getTypeInfo (.interfaceType [] true)).1 = (getTypeInfo (.interfaceType [] false)).1 :=
  ⟨(C8_getTypeInfo_fallback (.interfaceType [] false) (by decide)).1,
    (C8_getTypeInfo_fallback (.interfaceType [] false) (by decide)).2
      (.interfaceType [] true) rfl⟩

/-! ## The tag reader always returns -/

theorem UnquoteChar_length (s : List Char) (quote : Char) (r : Char) (mb : Bool)
    (rem : List Char) (h : UnquoteChar s quote = some (r, mb, rem)) :
    rem.length < s.length := by
  unfold UnquoteChar at h
  split at h
  · exact absurd h (by simp)
  · rename_i c tl
    split_ifs at h
    · injection h with h; injection h with _ h; injection h with _ h; subst h; simp
    · injection h with h; injection h with _ h; injection h with _ h; subst h; simp
    · split at h
      · exact absurd h (by simp)
      · rename_i e rest
        split at h
        · exact absurd h (by simp)
        · injection h with h; injection h with _ h; injection h with _ h; subst h
          simp only [List.length_cons, List.length_drop]; omega

theorem unquoteLoop_isSome (quote : Char) : ∀ (fuel : Nat) (inp buf : List Char),
    inp.length < fuel → ∃ r, unquoteLoop quote fuel inp buf = some r := by
  intro fuel
  induction fuel with
  | zero => intro inp buf h; omega
  | succ n ih =>
    intro inp buf h
    cases inp with
    | nil => exact ⟨_, rfl⟩
    | cons c tl =>
      unfold unquoteLoop
      by_cases hc : c = quote
      · simp [hc]
      · simp only [hc, if_false]
        cases hu : UnquoteChar (c :: tl) quote with
        | none => exact ⟨_, rfl⟩
        | some p =>
          obtain ⟨r, mb, rem⟩ := p
          by_cases hn : c = '\n'
          · simp [hn]
          · simp only [hn, if_false]
            apply ih
            have := UnquoteChar_length _ _ _ _ _ hu
            simp only [List.length_cons] at this h
            omega

theorem Unquote_isSome (s : List Char) (h : s.head? = some '"') :
    ∃ r, Unquote s = some r := by
  cases s with
  | nil => simp at h
  | cons quote tl =>
    simp only [List.head?_cons, Option.some.injEq] at h
    subst h
    unfold Unquote
    by_cases h2 : ('"' :: tl).length < 2
    · rw [if_pos h2]; exact ⟨_, rfl⟩
    · rw [if_neg h2]
      simp only [if_true]
      by_cases h3 : List.indexOf '"' tl < tl.length
      · rw [if_pos h3]
        split_ifs
        · exact ⟨_, rfl⟩
        · exact ⟨_, rfl⟩
        · obtain ⟨r, hr⟩ := unquoteLoop_isSome '"' (tl.length + 1) tl [] (by omega)
          rw [hr]
          rcases r with _ | ⟨buf, inp⟩
          · exact ⟨_, rfl⟩
          · cases inp with
            | nil => exact ⟨_, rfl⟩
            | cons c rem =>
              simp only
              split_ifs <;> exact ⟨_, rfl⟩
      · rw [if_neg h3]; exact ⟨_, rfl⟩

theorem lookupLoop_isSome : ∀ (fuel : Nat) (tag key : List Char),
    tag.length < fuel → ∃ r, lookupLoop fuel tag key = some r := by
  intro fuel
  induction fuel with
  | zero => intro tag key h; omega
  | succ n ih =>
    intro tag key h
    unfold lookupLoop
    by_cases h0 : tag = []
    · simp [h0]
    · simp only [h0, if_false]
      by_cases h1 : skipSpaces tag = []
      · simp [h1]
      · simp only [h1, if_false]
        split_ifs with hbrk hj hkey
        · exact ⟨_, rfl⟩
        · exact ⟨_, rfl⟩
        · have hq : (List.take (scanQuoted (List.drop 1 (List.drop (scanKey (skipSpaces tag) + 1)
              (skipSpaces tag))) 1 + 1) (List.drop (scanKey (skipSpaces tag) + 1)
              (skipSpaces tag))).head? = some '"' := by
            simp only [not_or, not_not] at hbrk
            rw [List.head?_take]
            simp only [Nat.add_one_ne_zero, if_false]
            rw [List.head?_drop]
            exact hbrk.2.2.2
          obtain ⟨r, hr⟩ := Unquote_isSome _ hq
          rw [hr]
          rcases r with _ | v <;> exact ⟨_, rfl⟩
        · apply ih
          have hle : (skipSpaces tag).length ≤ tag.length := by
            unfold skipSpaces
            exact (List.dropWhile_sublist _).length_le
          simp only [List.length_drop]
          have : 0 < tag.length := List.length_pos.mpr h0
          omega

theorem Lookup_isSome (tag key : String) : ∃ r, Lookup tag key = some r := by
  unfold Lookup
  obtain ⟨r, hr⟩ := lookupLoop_isSome (tag.data.length + 1) tag.data key.data (by omega)
  rw [hr]
  exact ⟨_, rfl⟩

/-! ## What the tag reader stores -/

theorem splitChars_head (sep : Char) (s : List Char) :
    (splitChars sep s)[0]? = some (s.takeWhile (fun c => c ≠ sep)) := by
  induction s with
  | nil => simp [splitChars]
  | cons c cs ih =>
    unfold splitChars
    by_cases h : c = sep
    · simp [h]
    · rw [if_neg h]
      cases hs : splitChars sep cs with
      | nil => rw [hs] at ih; simp at ih
      | cons p ps =>
        rw [hs] at ih
        simp only [List.getElem?_cons_zero, Option.some.injEq] at ih
        simp [List.takeWhile_cons, h, ih]

theorem Split_first (value : String) :
    (Split value ',')[0]? = some (firstSegment value) := by
  unfold Split firstSegment
  rw [List.getElem?_map, splitChars_head]
  rfl

theorem lookup_cons_eq (k2 a b : String) (ps : List (String × String)) :
    List.lookup k2 ((a, b) :: ps) = if k2 = a then some b else List.lookup k2 ps := by
  by_cases h : k2 = a
  · subst h; simp [List.lookup_cons]
  · have : (k2 == a) = false := by simpa using h
    rw [List.lookup_cons, this, if_neg h]

theorem lookup_map_set (k v k2 : String) (m : List (String × String)) :
    List.lookup k2 (m.map (fun p => if p.1 = k then (k, v) else p)) =
      if k2 = k then (List.lookup k m).map (fun _ => v) else List.lookup k2 m := by
  induction m with
  | nil => simp
  | cons p ps ih =>
    obtain ⟨a, b⟩ := p
    rw [List.map_cons]
    by_cases ha : a = k
    · rw [if_pos ha, lookup_cons_eq, ih, lookup_cons_eq, lookup_cons_eq]
      subst ha
      by_cases hk : k2 = a
      · simp [hk]
      · simp [hk]
    · rw [if_neg ha, lookup_cons_eq, ih, lookup_cons_eq, lookup_cons_eq]
      by_cases hk : k2 = k
      · subst hk
        have : ¬ k2 = a := fun h => ha h.symm
        simp [this]
      · simp [hk]

theorem TagMap.get?_set (m : TagMap) (k v k2 : String) :
    (m.set k v).get? k2 = if k2 = k then some v else m.get? k2 := by
  unfold TagMap.set TagMap.get?
  by_cases h1 : (List.lookup k m).isSome = true
  · rw [if_pos h1, lookup_map_set]
    by_cases h2 : k2 = k
    · rw [if_pos h2, if_pos h2]
      obtain ⟨x, hx⟩ := Option.isSome_iff_exists.mp h1
      rw [hx]; rfl
    · rw [if_neg h2, if_neg h2]
  · rw [if_neg h1, List.lookup_append]
    have hnone : List.lookup k m = none := by
      cases hl : List.lookup k m with
      | none => rfl
      | some x => rw [hl] at h1; simp at h1
    by_cases h2 : k2 = k
    · subst h2
      rw [hnone, if_pos rfl, lookup_cons_eq]
      simp
    · rw [if_neg h2, lookup_cons_eq, if_neg h2]
      cases List.lookup k2 m <;> simp

theorem parseStructTagStep_eq (structTag : String) (tags : TagMap) (key : String) :
    parseStructTagStep structTag tags key =
      some (match storedValue structTag key with
        | some v => tags.set key v
        | none => tags) := by
  unfold parseStructTagStep storedValue
  obtain ⟨r, hr⟩ := Lookup_isSome structTag key
  rw [hr]
  cases r with
  | none => rfl
  | some value => simp [Split_first]

theorem parseStructTag_fold (structTag : String) : ∀ (ks : List String) (m0 : TagMap),
    ∃ m, ks.foldlM (parseStructTagStep structTag) m0 = some m ∧
      ∀ k : String, m.get? k =
        if k ∈ ks then (storedValue structTag k <|> m0.get? k) else m0.get? k := by
  intro ks
  induction ks with
  | nil => intro m0; exact ⟨m0, rfl, by simp⟩
  | cons a ks ih =>
    intro m0
    rw [List.foldlM_cons, parseStructTagStep_eq]
    obtain ⟨m, hm, hget⟩ := ih (match storedValue structTag a with
        | some v => m0.set a v
        | none => m0)
    refine ⟨m, hm, ?_⟩
    intro k
    rw [hget k]
    cases hs : storedValue structTag a with
    | none =>
      by_cases hk : k = a
      · subst hk; by_cases hin : k ∈ ks <;> simp [hin, hs]
      · by_cases hin : k ∈ ks <;> simp [hin, hk]
    | some v =>
      simp only [TagMap.get?_set]
      by_cases hk : k = a
      · subst hk; by_cases hin : k ∈ ks <;> simp [hin, hs]
      · by_cases hin : k ∈ ks <;> simp [hin, hk]

theorem parseStructTag_spec (tag : String) :
    ∃ m, parseStructTag tag = some m ∧
      ∀ k : String, m.get? k =
        if k ∈ recognizedKeys then storedValue (Trim tag "`") k else none := by
  unfold parseStructTag
  by_cases h : tag = ""
  · subst h
    refine ⟨[], by simp, ?_⟩
    intro k
    have : ∀ key : String, storedValue (Trim "" "`") key = none := by
      intro key
      have : Lookup (Trim "" "`") key = some none := by
        unfold Lookup
        have : (Trim "" "`").data = [] := by decide
        rw [this]
        simp [lookupLoop]
      simp [storedValue, this]
    simp [this, TagMap.get?]
  · rw [if_neg h]
    obtain ⟨m, hm, hget⟩ := parseStructTag_fold (Trim tag "`") recognizedKeys []
    refine ⟨m, hm, ?_⟩
    intro k
    rw [hget k]
    by_cases hin : k ∈ recognizedKeys <;> simp [hin, TagMap.get?]

theorem firstSegment_no_comma (value : String) : ',' ∉ (firstSegment value).data := by
  unfold firstSegment
  intro h
  have := List.mem_takeWhile_imp h
  simp at this

theorem lookupLoop_no_leadingPair (fuel : Nat) (tag key : List Char)
    (h : leadingPair tag = false) : lookupLoop (fuel + 1) tag key = some none := by
  unfold lookupLoop
  by_cases h0 : tag = []
  · rw [if_pos h0]
  · rw [if_neg h0]
    simp only
    by_cases h1 : skipSpaces tag = []
    · rw [if_pos h1]
    · rw [if_neg h1]
      by_cases hb : scanKey (skipSpaces tag) = 0 ∨
          scanKey (skipSpaces tag) + 1 ≥ (skipSpaces tag).length ∨
          (skipSpaces tag)[scanKey (skipSpaces tag)]? ≠ some ':' ∨
          (skipSpaces tag)[scanKey (skipSpaces tag) + 1]? ≠ some '"'
      · rw [if_pos hb]
      · rw [if_neg hb]
        simp only [not_or, not_not] at hb
        obtain ⟨hb1, _, hb3, hb4⟩ := hb
        have hj : scanQuoted (List.drop 1 (List.drop (scanKey (skipSpaces tag) + 1)
            (skipSpaces tag))) 1 ≥ (List.drop (scanKey (skipSpaces tag) + 1)
            (skipSpaces tag)).length := by
          unfold leadingPair at h
          simp only [Bool.and_eq_false_iff, decide_eq_false_iff_not] at h
          rcases h with ((h | h) | h) | h
          · omega
          · exact absurd hb3 h
          · exact absurd hb4 h
          · omega
        rw [if_pos hj]

theorem TagMap.eq_nil_of_get? (m : TagMap) (h : ∀ k : String, m.get? k = none) : m = [] := by
  cases m with
  | nil => rfl
  | cons p ps =>
    obtain ⟨a, b⟩ := p
    have := h a
    rw [TagMap.get?, lookup_cons_eq, if_pos rfl] at this
    exact absurd this (by simp)

/-! ## The tag reader -/

/-- C9: the tag reader returns a mapping whose keys are among `json`, `xml`, `yaml`
and `db`; a recognized key is in the mapping exactly when the struct-tag lookup of the
key, in the tag text without its back quotes, succeeds, and its value is then the part
of the looked-up value before its first comma, so no stored value contains a comma;
the lookup yields the first occurrence of a key, and a modifier such as `omitempty` is
dropped. -/
theorem C9_parseStructTag_mapping (tag : String) :
    ∃ m : TagMap, parseStructTag tag = some m ∧
      (∀ k v : String, m.get? k = some v → k ∈ ["json", "xml", "yaml", "db"]) ∧
      (∀ k : String, k ∈ ["json", "xml", "yaml", "db"] →
        ((m.get? k).isSome ↔ ∃ value, Lookup (Trim tag "`") k = some (some value))) ∧
      (∀ k value : String, k ∈ ["json", "xml", "yaml", "db"] →
        Lookup (Trim tag "`") k = some (some value) →
          m.get? k = some (firstSegment value)) ∧
      (∀ k v : String, m.get? k = some v → ',' ∉ v.data) ∧
      parseStructTag "`json:\"name,omitempty\" json:\"other\"`" = some [("json", "name")] := by
  obtain ⟨m, hm, hget⟩ := parseStructTag_spec tag
  have hstored : ∀ k v : String, m.get? k = some v →
      k ∈ recognizedKeys ∧ storedValue (Trim tag "`") k = some v := by
    intro k v h
    rw [hget k] at h
    by_cases hin : k ∈ recognizedKeys
    · rw [if_pos hin] at h; exact ⟨hin, h⟩
    · rw [if_neg hin] at h; exact absurd h (by simp)
  refine ⟨m, hm, fun k v h => (hstored k v h).1, ?_, ?_, ?_, by decide⟩
  · intro k hk
    have hk2 : k ∈ recognizedKeys := hk
    rw [hget k, if_pos hk2]
    unfold storedValue
    obtain ⟨r, hr⟩ := Lookup_isSome (Trim tag "`") k
    rw [hr]
    cases r <;> simp
  · intro k value hk hl
    have hk2 : k ∈ recognizedKeys := hk
    rw [hget k, if_pos hk2]
    unfold storedValue
    rw [hl]
  · intro k v h
    have hs := (hstored k v h).2
    unfold storedValue at hs
    split at hs
    · simp only [Option.some.injEq] at hs
      rw [← hs]
      exact firstSegment_no_comma _
    · exact absurd hs (by simp)

/-- Witness of C9: for the tag of a field `Name string` with `json:"name,omitempty"`,
the value stored for `json` is `name`, which has no comma. -/
theorem C9_parseStructTag_mapping_witness : ',' ∉ ("name" : String).data := by
  obtain ⟨m, hm, _, _, _, hc, _⟩ := C9_parseStructTag_mapping "`json:\"name,omitempty\"`"
  have h : parseStructTag "`json:\"name,omitempty\"`" = some [("json", "name")] := by decide
  rw [h] at hm
  simp only [Option.some.injEq] at hm
  exact hc "json" "name" (by rw [← hm]; decide)

/-- C10, as stated, fails: the tag `json:"id" oops` is malformed (the text after the
first pair is not a pair), yet the tag reader returns the mapping with `json ↦ id`. -/
theorem C10_malformed_counterexample :
    wellFormedTag "`json:\"id\" oops`" = false ∧
      parseStructTag "`json:\"id\" oops`" = some [("json", "id")] ∧
      parseStructTag "`json:\"id\" oops`" ≠ some [] := by
  decide

/-- C10, amended: the tag reader returns a mapping for every tag text, and the mapping
is empty when the text is empty or when the text between the back quotes does not
start, after leading spaces, with the outline of a `key:"value"` pair. -/
theorem C10_parseStructTag_empty (tag : String) :
    (∃ m : TagMap, parseStructTag tag = some m) ∧
      (tag = "" ∨ leadingPair (Trim tag "`").data = false → parseStructTag tag = some []) := by
  obtain ⟨m, hm, hget⟩ := parseStructTag_spec tag
  refine ⟨⟨m, hm⟩, ?_⟩
  rintro (h | h)
  · subst h; rfl
  · rw [hm]
    have : m = [] := by
      apply TagMap.eq_nil_of_get?
      intro k
      rw [hget k]
      have hs : storedValue (Trim tag "`") k = none := by
        unfold storedValue Lookup
        rw [lookupLoop_no_leadingPair _ _ _ h]
        rfl
      rw [hs]
      simp
    rw [this]

/-- Witness of C10: a tag written with `=` in place of the colon has no leading pair,
and the empty tag is empty; both give the empty mapping. -/
theorem C10_parseStructTag_empty_witness :
    parseStructTag "`json=\"id\"`" = some [] ∧ parseStructTag "" = some [] :=
  ⟨(C10_parseStructTag_empty "`json=\"id\"`").2 (Or.inr (by decide)),
    (C10_parseStructTag_empty "").2 (Or.inl rfl)⟩


/-! ## Field names -/

theorem parseStructTag_of_no_leadingPair (tag : String)
    (h : leadingPair (Trim tag "`").data = false) : parseStructTag tag = some [] := by
  obtain ⟨m, hm, hget⟩ := parseStructTag_spec tag
  rw [hm]
  have : m = [] := by
    apply TagMap.eq_nil_of_get?
    intro k
    rw [hget k]
    have hs : storedValue (Trim tag "`") k = none := by
      unfold storedValue Lookup
      rw [lookupLoop_no_leadingPair _ _ _ h]
      rfl
    rw [hs]
    simp
  rw [this]

theorem getFieldName_eq (p : Parser) (field : Field) (origName : String) :
    getFieldName p field origName =
      some (if p.fieldNameTag = "" then origName
        else match field.tag with
          | none => origName
          | some t =>
            if p.fieldNameTag ∈ recognizedKeys then
              match storedValue (Trim t "`") p.fieldNameTag with
              | some v => if v ≠ "" then v else origName
              | none => origName
            else origName) := by
  unfold getFieldName
  by_cases h : p.fieldNameTag = ""
  · rw [if_pos h, if_pos h]
  · rw [if_neg h, if_neg h]
    cases ht : field.tag with
    | none => rfl
    | some t =>
      obtain ⟨m, hm, hget⟩ := parseStructTag_spec t
      simp only [hm, hget]
      by_cases hin : p.fieldNameTag ∈ recognizedKeys
      · rw [if_pos hin, if_pos hin]
        cases storedValue (Trim t "`") p.fieldNameTag with
        | none => rfl
        | some v => by_cases hv : v = "" <;> simp [hv]
      · rw [if_neg hin, if_neg hin]

/-- C11: the tag override law.  `getFieldName` returns the first comma-delimited
segment of the tag value of the configured convention when the convention is
configured (non-empty), the field has a tag, the convention is a recognized key whose
lookup in the tag succeeds, and the segment is non-empty; it returns the declared
identifier when no convention is configured, when the field has no tag, when the
convention is not recognized or absent from the tag, and when the segment is empty. -/
theorem C11_getFieldName_override (p : Parser) (field : Field) (n : String) :
    (∀ t value : String, p.fieldNameTag ≠ "" → field.tag = some t →
        p.fieldNameTag ∈ recognizedKeys →
        Lookup (Trim t "`") p.fieldNameTag = some (some value) → firstSegment value ≠ "" →
        getFieldName p field n = some (firstSegment value)) ∧
      (p.fieldNameTag = "" → getFieldName p field n = some n) ∧
      (field.tag = none → getFieldName p field n = some n) ∧
      (∀ t : String, field.tag = some t →
        (p.fieldNameTag ∉ recognizedKeys ∨ Lookup (Trim t "`") p.fieldNameTag = some none ∨
          ∃ value, Lookup (Trim t "`") p.fieldNameTag = some (some value) ∧
            firstSegment value = "") →
        getFieldName p field n = some n) := by
  rw [getFieldName_eq]
  refine ⟨?_, ?_, ?_, ?_⟩
  · intro t value hc ht hin hl hv
    rw [if_neg hc, ht]
    simp only [if_pos hin, storedValue, hl, if_pos hv]
  · intro hc
    rw [if_pos hc]
  · intro ht
    rw [ht]
    simp
  · intro t ht hcases
    rw [ht]
    by_cases hc : p.fieldNameTag = ""
    · rw [if_pos hc]
    · rw [if_neg hc]
      rcases hcases with hin | hl | ⟨value, hl, hv⟩
      · simp only [if_neg hin]
      · by_cases hin : p.fieldNameTag ∈ recognizedKeys
        · simp only [if_pos hin, storedValue, hl]
        · simp only [if_neg hin]
      · by_cases hin : p.fieldNameTag ∈ recognizedKeys
        · simp only [if_pos hin, storedValue, hl, hv]
          simp
        · simp only [if_neg hin]

/-- Witness of C11: with the convention `json`, a field `Name` tagged
`json:"name,omitempty"` is displayed as `name`; tagged `json:",omitempty"` (empty
first segment) or `xml:"n"` (convention absent) it keeps its declared name. -/
theorem C11_getFieldName_override_witness :
    getFieldName (NewParser.SetFieldNameTag "json")
        (entry ["Name"] (unresolved "string") (some "`json:\"name,omitempty\"`") none) "Name" =
      some (firstSegment "name,omitempty") ∧
    getFieldName (NewParser.SetFieldNameTag "json")
        (entry ["Name"] (unresolved "string") (some "`json:\",omitempty\"`") none) "Name" =
      some "Name" ∧
    getFieldName (NewParser.SetFieldNameTag "json")
        (entry ["Name"] (unresolved "string") (some "`xml:\"n\"`") none) "Name" =
      some "Name" ∧
    getFieldName NewParser
        (entry ["Name"] (unresolved "string") (some "`json:\"name\"`") none) "Name" =
      some "Name" ∧
    getFieldName (NewParser.SetFieldNameTag "json")
        (entry ["Name"] (unresolved "string") none none) "Name" = some "Name" :=
  ⟨(C11_getFieldName_override _ _ _).1 "`json:\"name,omitempty\"`" "name,omitempty"
      (by decide) rfl (by decide) (by decide) (by decide),
    (C11_getFieldName_override _ _ _).2.2.2 "`json:\",omitempty\"`" rfl
      (Or.inr (Or.inr ⟨",omitempty", by decide, by decide⟩)),
    (C11_getFieldName_override _ _ _).2.2.2 "`xml:\"n\"`" rfl (Or.inr (Or.inl (by decide))),
    (C11_getFieldName_override _ _ _).2.1 rfl,
    (C11_getFieldName_override _ _ _).2.2.1 rfl⟩

/-- C12, as stated, fails: with the tag `label:"full_name"` and the convention
`label`, extraction gives `User` two fields, and the display name of the second is
`Name`, not `full_name`. -/
theorem C12_label_counterexample :
    (ParsePackage noTable (NewParser.SetFieldNameTag "label")
        [[scenarioUser "`label:\"full_name\"`"]]).map
      (fun structs => structs.map (fun s => (s.Name, s.Fields.map (fun f => f.Name)))) =
      some [("User", ["ID", "Name"])] := by
  decide

/-- C12, amended: extraction of the record of the scenario gives one Declaration
`User` with exactly two fields; tagged `label:"full_name"` with the convention `label`,
which is not a recognized key, the second field keeps the display name `Name`; tagged
`json:"full_name"` with the convention `json` its display name is `full_name`. -/
theorem C12_scenario_user (upper : Char → Bool) :
    (ParsePackage upper (NewParser.SetFieldNameTag "label")
        [[scenarioUser "`label:\"full_name\"`"]]).map
      (fun structs => structs.map (fun s => (s.Name, s.Fields.map (fun f => f.Name)))) =
      some [("User", ["ID", "Name"])] ∧
    (ParsePackage upper (NewParser.SetFieldNameTag "json")
        [[scenarioUser "`json:\"full_name\"`"]]).map
      (fun structs => structs.map (fun s => (s.Name, s.Fields.map (fun f => f.Name)))) =
      some [("User", ["ID", "full_name"])] ∧
    "label" ∉ recognizedKeys :=
  ⟨rfl, rfl, by decide⟩

/-! ## Extraction -/

theorem fieldInfo_eq (upper : Char → Bool) (p : Parser) (field : Field) (name : Ident) :
    fieldInfo upper p field name = some {
      Name := (getFieldName p field name.name).getD name.name
      TypeName := (getTypeInfo field.type).1
      RawType := (getTypeInfo field.type).2.1
      IsStruct := (getTypeInfo field.type).2.2
      Exported := IsExported upper name.name
      Comment := match field.comment with
        | some text => TrimSpace text
        | none => ""
      Tags := match field.tag with
        | some value => (parseStructTag value).getD []
        | none => [] } := by
  unfold fieldInfo
  rw [getFieldName_eq]
  cases ht : field.tag with
  | none => rfl
  | some t =>
    obtain ⟨m, hm, _⟩ := parseStructTag_spec t
    simp only [hm]
    rfl

theorem foldNames_spec (upper : Char → Bool) (p : Parser) (field : Field) :
    ∀ (names : List Ident) (acc : List StructField), ∃ new,
      names.foldlM (fun acc name =>
          (fieldInfo upper p field name).map (fun info => acc ++ [info])) acc =
        some (acc ++ new) ∧
      List.Forall₂ (fun fi q => fieldInfo upper p q.1 q.2 = some fi) new
        (names.map (fun name => (field, name))) := by
  intro names
  induction names with
  | nil => intro acc; exact ⟨[], by simp, List.Forall₂.nil⟩
  | cons n ns ih =>
    intro acc
    rw [List.foldlM_cons, fieldInfo_eq]
    obtain ⟨new, hnew, hall⟩ := ih (acc ++ [_])
    refine ⟨_ :: new, ?_, List.Forall₂.cons (fieldInfo_eq upper p field n) hall⟩
    simp only [Option.map_some', Option.some_bind, List.append_assoc, List.singleton_append] at hnew ⊢
    exact hnew

theorem foldFields_spec (upper : Char → Bool) (p : Parser) :
    ∀ (fieldList : List Field) (acc : List StructField), ∃ new,
      fieldList.foldlM (fun acc field => appendNames upper p field acc) acc =
        some (acc ++ new) ∧
      List.Forall₂ (fun fi q => fieldInfo upper p q.1 q.2 = some fi) new
        (declared fieldList) := by
  intro fieldList
  induction fieldList with
  | nil => intro acc; exact ⟨[], by simp, by simp [declared]⟩
  | cons f fl ih =>
    intro acc
    obtain ⟨new1, h1, hall1⟩ := foldNames_spec upper p f f.names acc
    obtain ⟨new2, h2, hall2⟩ := ih (acc ++ new1)
    refine ⟨new1 ++ new2, ?_, ?_⟩
    · rw [List.foldlM_cons]
      unfold appendNames
      rw [h1]
      simp only [Option.bind_eq_bind, Option.some_bind]
      rw [← List.append_assoc]
      exact h2
    · have : declared (f :: fl) = f.names.map (fun name => (f, name)) ++ declared fl := by
        simp [declared]
      rw [this]
      exact List.rel_append hall1 hall2

theorem structFields_spec (upper : Char → Bool) (p : Parser) (fieldList : List Field) :
    ∃ fields, structFields upper p fieldList = some fields ∧
      List.Forall₂ (fun fi q => fieldInfo upper p q.1 q.2 = some fi) fields
        (declared fieldList) := by
  obtain ⟨new, h, hall⟩ := foldFields_spec upper p fieldList []
  exact ⟨new, by simpa [structFields] using h, hall⟩

theorem declared_length (fieldList : List Field) :
    (declared fieldList).length = (fieldList.map (fun f => f.names.length)).sum := by
  induction fieldList with
  | nil => rfl
  | cons f fl ih =>
    have : declared (f :: fl) = f.names.map (fun name => (f, name)) ++ declared fl := by
      simp [declared]
    rw [this, List.length_append, ih]
    simp

theorem declared_filter (fieldList : List Field) :
    declared (fieldList.filter (fun f => !f.names.isEmpty)) = declared fieldList := by
  induction fieldList with
  | nil => rfl
  | cons f fl ih =>
    have hcons : ∀ l : List Field,
        declared (f :: l) = f.names.map (fun name => (f, name)) ++ declared l := by
      intro l; simp [declared]
    by_cases h : f.names = []
    · rw [List.filter_cons_of_neg (by simp [h]), ih, hcons, h]
      rfl
    · have : (!f.names.isEmpty) = true := by
        cases hn : f.names with
        | nil => exact absurd hn h
        | cons a l => rfl
      rw [List.filter_cons]
      simp only [this, if_true]
      rw [hcons, hcons, ih]

theorem visitTypeSpec_spec (upper : Char → Bool) (p : Parser) (structs : List StructInfo)
    (typeSpec : TypeSpec) :
    ∃ out, visitTypeSpec upper p structs typeSpec = some out ∧
      ((retained upper typeSpec = true ∧ ∃ info, out = structs ++ [info] ∧
          info.Name = typeSpec.name.name ∧ info.Exported = true ∧
          ∀ fieldList incomplete, typeSpec.type = .structType fieldList incomplete →
            structFields upper p fieldList = some info.Fields) ∨
        (retained upper typeSpec = false ∧ out = structs)) := by
  unfold visitTypeSpec retained
  cases hty : typeSpec.type
  case structType fieldList incomplete =>
    by_cases hex : IsExported upper typeSpec.name.name = true
    · obtain ⟨fields, hf, _⟩ := structFields_spec upper p fieldList
      simp only [hex, not_true_eq_false, if_false, hf]
      refine ⟨_, rfl, Or.inl ⟨by simp [Expr.kind], _, rfl, rfl, rfl, ?_⟩⟩
      intro fl inc heq
      injection heq with h1 h2
      subst h1
      exact hf
    · simp only [hex, if_true, not_false_eq_true]
      exact ⟨_, rfl, Or.inr ⟨by simp [hex], rfl⟩⟩
  all_goals exact ⟨_, rfl, Or.inr ⟨by simp [Expr.kind], rfl⟩⟩

theorem foldSpecs_spec (upper : Char → Bool) (p : Parser) :
    ∀ (file : List TypeSpec) (structs : List StructInfo), ∃ new,
      file.foldlM (visitTypeSpec upper p) structs = some (structs ++ new) ∧
      new.map (fun s => (s.Name, s.Exported)) =
        (file.filter (retained upper)).map (fun ts => (ts.name.name, true)) := by
  intro file
  induction file with
  | nil => intro structs; exact ⟨[], by simp, rfl⟩
  | cons ts rest ih =>
    intro structs
    obtain ⟨out, hout, hcase⟩ := visitTypeSpec_spec upper p structs ts
    rw [List.foldlM_cons, hout]
    simp only [Option.bind_eq_bind, Option.some_bind]
    rcases hcase with ⟨hret, info, hinfo, hname, hexp, _⟩ | ⟨hret, hsame⟩
    · obtain ⟨new, hnew, hmap⟩ := ih out
      refine ⟨info :: new, ?_, ?_⟩
      · rw [hnew, hinfo]; simp
      · rw [List.filter_cons_of_pos hret, List.map_cons, List.map_cons, hmap, hname, hexp]
    · obtain ⟨new, hnew, hmap⟩ := ih out
      refine ⟨new, ?_, ?_⟩
      · rw [hnew, hsame]
      · rw [List.filter_cons_of_neg (by simp [hret]), hmap]

theorem foldFiles_spec (upper : Char → Bool) (p : Parser) :
    ∀ (files : List (List TypeSpec)) (structs : List StructInfo), ∃ new,
      files.foldlM (fun structs file => file.foldlM (visitTypeSpec upper p) structs) structs =
        some (structs ++ new) ∧
      new.map (fun s => (s.Name, s.Exported)) =
        (files.flatten.filter (retained upper)).map (fun ts => (ts.name.name, true)) := by
  intro files
  induction files with
  | nil => intro structs; exact ⟨[], by simp, rfl⟩
  | cons file rest ih =>
    intro structs
    obtain ⟨new1, h1, hmap1⟩ := foldSpecs_spec upper p file structs
    obtain ⟨new2, h2, hmap2⟩ := ih (structs ++ new1)
    refine ⟨new1 ++ new2, ?_, ?_⟩
    · rw [List.foldlM_cons, h1]
      simp only [Option.bind_eq_bind, Option.some_bind]
      rw [← List.append_assoc]
      exact h2
    · rw [List.flatten_cons, List.filter_append, List.map_append, List.map_append, hmap1, hmap2]

theorem getTypeInfo_innermost : ∀ e : Expr,
    (getTypeInfo e).2 = (getTypeInfo (innermost e)).2
  | .starExpr x => by
    rw [getTypeInfo_starExpr, innermost]; exact getTypeInfo_innermost x
  | .arrayType len elt => by
    rw [getTypeInfo_arrayType, innermost]; exact getTypeInfo_innermost elt
  | .mapType key value => by
    rw [getTypeInfo_mapType, innermost]; exact getTypeInfo_innermost value
  | .badExpr | .ident _ | .ellipsis _ | .basicLit _ _ | .funcLit _ | .compositeLit _ _
  | .parenExpr _ | .selectorExpr _ _ | .indexExpr _ _ | .indexListExpr _ _
  | .sliceExpr _ _ _ _ _ | .typeAssertExpr _ _ | .callExpr _ _ | .unaryExpr _ _
  | .binaryExpr _ _ _ | .keyValueExpr _ _ | .structType _ _ | .funcType _ _ _
  | .interfaceType _ _ | .chanType _ _ => by simp [innermost]

theorem innermost_kind : ∀ e : Expr,
    (innermost e).kind ∉ [ExprKind.StarExpr, ExprKind.ArrayType, ExprKind.MapType]
  | .starExpr x => by rw [innermost]; exact innermost_kind x
  | .arrayType len elt => by rw [innermost]; exact innermost_kind elt
  | .mapType key value => by rw [innermost]; exact innermost_kind value
  | .badExpr | .ident _ | .ellipsis _ | .basicLit _ _ | .funcLit _ | .compositeLit _ _
  | .parenExpr _ | .selectorExpr _ _ | .indexExpr _ _ | .indexListExpr _ _
  | .sliceExpr _ _ _ _ _ | .typeAssertExpr _ _ | .callExpr _ _ | .unaryExpr _ _
  | .binaryExpr _ _ _ | .keyValueExpr _ _ | .structType _ _ | .funcType _ _ _
  | .interfaceType _ _ | .chanType _ _ => by simp [innermost, Expr.kind]

theorem getTypeInfo_other (a : Expr)
    (ha : a.kind ∉ [ExprKind.Ident, ExprKind.StarExpr, ExprKind.ArrayType, ExprKind.MapType,
      ExprKind.SelectorExpr]) : getTypeInfo a = (a.kind.typeName, "", false) := by
  cases a <;> simp [Expr.kind] at ha <;> simp [getTypeInfo, Expr.kind]

theorem suffix_data_append (r d : String) (pre : String) (h : r.data <:+ d.data) :
    r.data <:+ (pre ++ d).data := by
  rw [String.data_append]
  exact h.trans (List.suffix_append _ _)

theorem getTypeInfo_suffix : ∀ e : Expr, (getTypeInfo e).2.1.data <:+ (getTypeInfo e).1.data
  | .starExpr x => by
    rw [getTypeInfo_starExpr]; exact suffix_data_append _ _ _ (getTypeInfo_suffix x)
  | .arrayType len elt => by
    rw [getTypeInfo_arrayType]; exact suffix_data_append _ _ _ (getTypeInfo_suffix elt)
  | .mapType key value => by
    rw [getTypeInfo_mapType]; exact suffix_data_append _ _ _ (getTypeInfo_suffix value)
  | .selectorExpr x sel => by
    rw [getTypeInfo_selectorExpr]; exact suffix_data_append _ _ _ (List.suffix_refl _)
  | .ident t => by rw [getTypeInfo]
  | .badExpr | .ellipsis _ | .basicLit _ _ | .funcLit _ | .compositeLit _ _
  | .parenExpr _ | .indexExpr _ _ | .indexListExpr _ _
  | .sliceExpr _ _ _ _ _ | .typeAssertExpr _ _ | .callExpr _ _ | .unaryExpr _ _
  | .binaryExpr _ _ _ | .keyValueExpr _ _ | .structType _ _ | .funcType _ _ _
  | .interfaceType _ _ | .chanType _ _ => by
    rw [getTypeInfo_other _ (by simp [Expr.kind])]
    exact List.nil_suffix

theorem forall₂_map_eq {α β γ : Type} (R : α → β → Prop) (g : α → γ) (h : β → γ)
    (hR : ∀ a b, R a b → g a = h b) :
    ∀ (l1 : List α) (l2 : List β), List.Forall₂ R l1 l2 → l1.map g = l2.map h := by
  intro l1 l2 hall
  induction hall with
  | nil => rfl
  | cons hab _ ih => rw [List.map_cons, List.map_cons, hR _ _ hab, ih]

/-- C13, as stated, fails: the alias declaration `type Point = struct { X int }` is an
alias, and extraction produces a Declaration for it. -/
theorem C13_alias_counterexample :
    aliasPoint.assign = true ∧
      (ParsePackage noTable NewParser [[aliasPoint]]).map
        (fun structs => structs.map (fun s => (s.Name, s.Exported))) =
        some [("Point", true)] := by
  decide

/-- C13, amended: extraction returns, in the order of the declarations, exactly one
Declaration for every type declaration whose type expression is a struct type (in a
type definition or in an alias declaration) and whose name is exported, carrying the
declared name and the exported flag true, and none for any other declaration; of
`User` and `privateStruct` only `User` is kept. -/
theorem C13_retained_declarations (upper : Char → Bool) (p : Parser)
    (files : List (List TypeSpec)) :
    ∃ structs, ParsePackage upper p files = some structs ∧
      structs.map (fun s => (s.Name, s.Exported)) =
        (files.flatten.filter (retained upper)).map (fun ts => (ts.name.name, true)) ∧
      (∀ ts : TypeSpec, retained upper ts = true ↔
        (∃ fieldList incomplete, ts.type = .structType fieldList incomplete) ∧
          IsExported upper ts.name.name = true) ∧
      retained upper exampleUser = true ∧ retained upper examplePrivate = false ∧
      retained upper aliasPoint = true := by
  obtain ⟨new, h, hmap⟩ := foldFiles_spec upper p files []
  refine ⟨new, by simpa [ParsePackage] using h, hmap, ?_, rfl, rfl, rfl⟩
  intro ts
  unfold retained
  cases hty : ts.type <;> simp [Expr.kind]

/-- C14: the Declaration of a retained record has, in source order, exactly one Field
for each declared identifier of each field-list entry, so the number of Fields is the
sum of the numbers of identifiers of the entries; entries without an identifier
contribute nothing, and an empty field list gives the empty field sequence. -/
theorem C14_fields_per_identifier (upper : Char → Bool) (p : Parser)
    (structs : List StructInfo) (typeSpec : TypeSpec) (fieldList : List Field)
    (incomplete : Bool) (hty : typeSpec.type = .structType fieldList incomplete)
    (hex : IsExported upper typeSpec.name.name = true) :
    ∃ info, visitTypeSpec upper p structs typeSpec = some (structs ++ [info]) ∧
      List.Forall₂ (fun fi q => fieldInfo upper p q.1 q.2 = some fi) info.Fields
        (declared fieldList) ∧
      info.Fields.length = (fieldList.map (fun f => f.names.length)).sum ∧
      declared (fieldList.filter (fun f => !f.names.isEmpty)) = declared fieldList ∧
      (p.fieldNameTag = "" →
        info.Fields.map (fun f => f.Name) = (declared fieldList).map (fun q => q.2.name)) ∧
      (fieldList = [] → info.Fields = []) := by
  obtain ⟨out, hout, hcase⟩ := visitTypeSpec_spec upper p structs typeSpec
  have hret : retained upper typeSpec = true := by
    unfold retained
    rw [hty, hex]
    simp [Expr.kind]
  rcases hcase with ⟨_, info, hinfo, _, _, hfields⟩ | ⟨hno, _⟩
  · obtain ⟨fields, hf, hall⟩ := structFields_spec upper p fieldList
    have heq : info.Fields = fields := by
      have := hfields fieldList incomplete hty
      rw [hf] at this
      exact (Option.some.inj this).symm
    have hlen : info.Fields.length = (fieldList.map (fun f => f.names.length)).sum := by
      rw [heq, hall.length_eq, declared_length]
    refine ⟨info, by rw [hout, hinfo], heq ▸ hall, hlen, declared_filter fieldList, ?_, ?_⟩
    · intro hc
      rw [heq]
      apply forall₂_map_eq _ _ _ _ _ _ hall
      intro fi q hq
      rw [fieldInfo_eq, getFieldName_eq, if_pos hc] at hq
      rw [← Option.some.inj hq]
      rfl
    · intro hnil
      subst hnil
      exact List.eq_nil_of_length_eq_zero (by rw [hlen]; rfl)
  · rw [hret] at hno
    exact absurd hno (by simp)

/-- Witness of C14: the struct with `A, B int`, an embedded `io.Reader` and `c string`
gets three Fields, named `A`, `B` and `c`. -/
theorem C14_fields_per_identifier_witness :
    (visitTypeSpec noTable NewParser [] exampleMixed).map
      (fun structs => structs.map (fun s => s.Fields.map (fun f => f.Name))) =
      some [["A", "B", "c"]] := by
  obtain ⟨info, h, _, _, _, hnames, _⟩ :=
    C14_fields_per_identifier noTable NewParser [] exampleMixed _ false rfl (by decide)
  rw [h, Option.map_some', List.nil_append, List.map_cons, List.map_nil, hnames rfl]
  decide

/-- C15: the Field of a declared name exists whatever the casing of the name, and its
exported flag is that of the declared identifier, not of the display name: in `User`
of the example, displayed by the `json` tags, `ID` is shown as `id` and is exported,
and `age` is present and not exported. -/
theorem C15_field_exported (upper : Char → Bool) (p : Parser) (field : Field) (name : Ident) :
    (∃ fi, fieldInfo upper p field name = some fi ∧
      fi.Exported = IsExported upper name.name) ∧
    (∀ fieldList : List Field, ∃ fields, structFields upper p fieldList = some fields ∧
      fields.map (fun f => f.Exported) =
        (declared fieldList).map (fun q => IsExported upper q.2.name)) ∧
    (ParsePackage upper (NewParser.SetFieldNameTag "json") [[exampleUser]]).map
      (fun structs => structs.map (fun s => s.Fields.map (fun f => (f.Name, f.Exported)))) =
      some [[("id", true), ("name", true), ("email", true), ("age", false),
        ("address", true)]] := by
  refine ⟨⟨_, fieldInfo_eq upper p field name, rfl⟩, ?_, rfl⟩
  intro fieldList
  obtain ⟨fields, hf, hall⟩ := structFields_spec upper p fieldList
  refine ⟨fields, hf, forall₂_map_eq _ _ _ ?_ _ _ hall⟩
  intro fi q hq
  rw [fieldInfo_eq] at hq
  rw [← Option.some.inj hq]

/-- C16, as stated, fails: for the field `ID int` the raw type name is `int` although
the is-record flag is false. -/
theorem C16_rawName_counterexample :
    getTypeInfo (unresolved "int") = ("int", "int", false) ∧
      (fieldInfo noTable NewParser (entry ["ID"] (unresolved "int") none none)
        ⟨"ID", none⟩).map (fun f => (f.RawType, f.IsStruct)) = some ("int", false) := by
  decide

/-- C16, amended: the Field stores the raw name and the is-record flag that the
resolver returns for the field's type; the raw name is empty (and the flag false) when
the expression under the pointer, slice/array and map-value wrappers is neither an
identifier nor a selector, and it is the identifier's name, or the selected name,
otherwise, whatever the flag. -/
theorem C16_rawName (upper : Char → Bool) (p : Parser) (field : Field) (name : Ident) :
    ∃ fi, fieldInfo upper p field name = some fi ∧
      fi.RawType = (getTypeInfo field.type).2.1 ∧
      fi.IsStruct = (getTypeInfo field.type).2.2 ∧
      ((innermost field.type).kind ∉ [ExprKind.Ident, ExprKind.SelectorExpr] →
        fi.RawType = "" ∧ fi.IsStruct = false) ∧
      (∀ t : Ident, innermost field.type = .ident t →
        fi.RawType = t.name ∧ fi.IsStruct = t.isTyp) ∧
      (∀ (x : Expr) (sel : Ident), innermost field.type = .selectorExpr x sel →
        fi.RawType = sel.name ∧ fi.IsStruct = false) := by
  refine ⟨_, fieldInfo_eq upper p field name, rfl, rfl, ?_, ?_, ?_⟩
  · intro hk
    have hin := getTypeInfo_innermost field.type
    have hk2 := innermost_kind field.type
    have hother : getTypeInfo (innermost field.type) =
        ((innermost field.type).kind.typeName, "", false) := by
      apply getTypeInfo_other
      simp only [List.mem_cons, List.mem_singleton, not_or, List.not_mem_nil, or_false] at hk hk2 ⊢
      exact ⟨hk.1, hk2.1, hk2.2.1, hk2.2.2, hk.2⟩
    show (getTypeInfo field.type).2.1 = "" ∧ (getTypeInfo field.type).2.2 = false
    rw [hin, hother]
    exact ⟨rfl, rfl⟩
  · intro t ht
    show (getTypeInfo field.type).2.1 = t.name ∧ (getTypeInfo field.type).2.2 = t.isTyp
    rw [getTypeInfo_innermost, ht, getTypeInfo]
    exact ⟨rfl, rfl⟩
  · intro x sel hs
    show (getTypeInfo field.type).2.1 = sel.name ∧ (getTypeInfo field.type).2.2 = false
    rw [getTypeInfo_innermost, hs, getTypeInfo_selectorExpr]
    exact ⟨rfl, rfl⟩

/-- Witness of C16: a field of type `[]chan int` has the empty raw name, a field of
type `*int` the raw name `int`, and a field of type `[]pkg.T` the raw name `T`; none
is flagged as a record. -/
theorem C16_rawName_witness :
    ((fieldInfo noTable NewParser
        (entry ["C"] (.arrayType none (.chanType 3 (unresolved "int"))) none none)
        ⟨"C", none⟩).map (fun f => (f.RawType, f.IsStruct)) = some ("", false)) ∧
    ((fieldInfo noTable NewParser (entry ["P"] (.starExpr (unresolved "int")) none none)
        ⟨"P", none⟩).map (fun f => (f.RawType, f.IsStruct)) = some ("int", false)) ∧
    ((fieldInfo noTable NewParser
        (entry ["S"] (.arrayType none (.selectorExpr (unresolved "pkg") ⟨"T", none⟩)) none none)
        ⟨"S", none⟩).map (fun f => (f.RawType, f.IsStruct)) = some ("T", false)) := by
  refine ⟨?_, ?_, ?_⟩
  · obtain ⟨fi, h, _, _, h1, _, _⟩ := C16_rawName noTable NewParser
      (entry ["C"] (.arrayType none (.chanType 3 (unresolved "int"))) none none) ⟨"C", none⟩
    rw [h, Option.map_some', (h1 (by decide)).1, (h1 (by decide)).2]
  · obtain ⟨fi, h, _, _, _, h2, _⟩ := C16_rawName noTable NewParser
      (entry ["P"] (.starExpr (unresolved "int")) none none) ⟨"P", none⟩
    rw [h, Option.map_some', (h2 ⟨"int", none⟩ rfl).1, (h2 ⟨"int", none⟩ rfl).2]
    rfl
  · obtain ⟨fi, h, _, _, _, _, h3⟩ := C16_rawName noTable NewParser
      (entry ["S"] (.arrayType none (.selectorExpr (unresolved "pkg") ⟨"T", none⟩)) none none)
      ⟨"S", none⟩
    rw [h, Option.map_some', (h3 _ _ rfl).1, (h3 _ _ rfl).2]

/-- C17 at the failing input: in a file that declares `type ID int` and a struct
`User` with a field `Id ID`, the field is flagged as a record although no declaration
of the file gives `ID` a struct type. -/
theorem C17_isStruct_of_named_int :
    (ParsePackage noTable NewParser [fileWithNamedInt]).map
        (fun structs => structs.map
          (fun s => s.Fields.map (fun f => (f.Name, f.TypeName, f.IsStruct)))) =
      some [[("Id", "ID", true)]] ∧
    declaresStruct fileWithNamedInt "ID" = false := by
  decide

/-- C18: for every type expression the raw name returned by the resolver is a suffix
of the display string it returns (the empty raw name trivially); so the display string
of a type flagged as a record ends with the name of the record. -/
theorem C18_rawName_suffix (e : Expr) :
    (getTypeInfo e).2.1.data <:+ (getTypeInfo e).1.data ∧
      getTypeInfo (.mapType (unresolved "string") (.starExpr (localType "Contact"))) =
        ("map[string]*Contact", "Contact", true) :=
  ⟨getTypeInfo_suffix e, by decide⟩

/-- C19, as stated, fails: for the entry `A, B int` tagged `label:"n"`, read with the
convention `label`, the convention is present in the tag with the non-empty first
segment `n`, yet the two Fields keep the display names `A` and `B`. -/
theorem C19_label_counterexample :
    Lookup (Trim "`label:\"n\"`" "`") "label" = some (some "n") ∧
      firstSegment "n" = "n" ∧
      (structFields noTable (NewParser.SetFieldNameTag "label")
          [entry ["A", "B"] (unresolved "int") (some "`label:\"n\"`") none]).map
        (fun fields => fields.map (fun f => f.Name)) = some ["A", "B"] := by
  decide

/-- C19, amended: the Fields expanded from one field-list entry with several names
carry the same type string, raw name, is-record flag, tag mapping and trailing comment,
namely those computed from the entry's type, tag and comment; when the configured
convention is a recognized key found in the entry's tag with a non-empty first segment,
they all get that segment as display name; when the configured convention is not a
recognized key, each keeps its declared identifier. -/
theorem C19_shared_entry (upper : Char → Bool) (p : Parser) (field : Field)
    (n1 n2 : Ident) :
    ∃ a b, fieldInfo upper p field n1 = some a ∧ fieldInfo upper p field n2 = some b ∧
      a.TypeName = b.TypeName ∧ a.RawType = b.RawType ∧ a.IsStruct = b.IsStruct ∧
      a.Tags = b.Tags ∧ a.Comment = b.Comment ∧
      (a.TypeName, a.RawType, a.IsStruct) = getTypeInfo field.type ∧
      (∀ t : String, field.tag = some t → parseStructTag t = some a.Tags) ∧
      (field.tag = none → a.Tags = []) ∧
      (∀ text : String, field.comment = some text → a.Comment = TrimSpace text) ∧
      (field.comment = none → a.Comment = "") ∧
      (∀ t value : String, p.fieldNameTag ≠ "" → field.tag = some t →
        p.fieldNameTag ∈ recognizedKeys →
        Lookup (Trim t "`") p.fieldNameTag = some (some value) → firstSegment value ≠ "" →
        a.Name = firstSegment value ∧ b.Name = firstSegment value) ∧
      (p.fieldNameTag ∉ recognizedKeys → a.Name = n1.name ∧ b.Name = n2.name) := by
  refine ⟨_, _, fieldInfo_eq upper p field n1, fieldInfo_eq upper p field n2,
    rfl, rfl, rfl, rfl, rfl, rfl, ?_, ?_, ?_, ?_, ?_, ?_⟩
  · intro t ht
    obtain ⟨m, hm, _⟩ := parseStructTag_spec t
    simp only [ht, hm, Option.getD_some]
  · intro ht
    simp only [ht]
  · intro text hc
    simp only [hc]
  · intro hc
    simp only [hc]
  · intro t value hc ht hin hl hv
    have key : ∀ n : String, getFieldName p field n = some (firstSegment value) := by
      intro n
      rw [getFieldName_eq, if_neg hc, ht]
      simp only [if_pos hin, storedValue, hl, if_pos hv]
    constructor
    · show (getFieldName p field n1.name).getD n1.name = firstSegment value
      rw [key]; rfl
    · show (getFieldName p field n2.name).getD n2.name = firstSegment value
      rw [key]; rfl
  · intro hin
    have key : ∀ n : String, getFieldName p field n = some n := by
      intro n
      rw [getFieldName_eq]
      by_cases hc : p.fieldNameTag = ""
      · rw [if_pos hc]
      · rw [if_neg hc]
        cases field.tag with
        | none => rfl
        | some t => simp only [if_neg hin]
    constructor
    · show (getFieldName p field n1.name).getD n1.name = n1.name
      rw [key]; rfl
    · show (getFieldName p field n2.name).getD n2.name = n2.name
      rw [key]; rfl

/-- Witness of C19: the entry `A, B int` tagged `json:"n,omitempty"`, read with the
convention `json`, gives two Fields that are both displayed as `n`; the entry `A, B int`
tagged `label:"n"`, read with the convention `label`, gives Fields displayed as `A` and
`B`. -/
theorem C19_shared_entry_witness :
    ((fieldInfo noTable (NewParser.SetFieldNameTag "json")
        (entry ["A", "B"] (unresolved "int") (some "`json:\"n,omitempty\"`") none)
        ⟨"A", none⟩).map (fun f => f.Name) = some (firstSegment "n,omitempty") ∧
    (fieldInfo noTable (NewParser.SetFieldNameTag "json")
        (entry ["A", "B"] (unresolved "int") (some "`json:\"n,omitempty\"`") none)
        ⟨"B", none⟩).map (fun f => f.Name) = some (firstSegment "n,omitempty")) ∧
    ((fieldInfo noTable (NewParser.SetFieldNameTag "label")
        (entry ["A", "B"] (unresolved "int") (some "`label:\"n\"`") none)
        ⟨"A", none⟩).map (fun f => f.Name) = some "A" ∧
    (fieldInfo noTable (NewParser.SetFieldNameTag "label")
        (entry ["A", "B"] (unresolved "int") (some "`label:\"n\"`") none)
        ⟨"B", none⟩).map (fun f => f.Name) = some "B") := by
  constructor
  · obtain ⟨a, b, ha, hb, _, _, _, _, _, _, _, _, _, _, hname, _⟩ :=
      C19_shared_entry noTable (NewParser.SetFieldNameTag "json")
        (entry ["A", "B"] (unresolved "int") (some "`json:\"n,omitempty\"`") none)
        ⟨"A", none⟩ ⟨"B", none⟩
    have hn := hname "`json:\"n,omitempty\"`" "n,omitempty" (by decide) rfl (by decide)
      (by decide) (by decide)
    rw [ha, hb, Option.map_some', Option.map_some', hn.1, hn.2]
    exact ⟨rfl, rfl⟩
  · obtain ⟨a, b, ha, hb, _, _, _, _, _, _, _, _, _, _, _, hkeep⟩ :=
      C19_shared_entry noTable (NewParser.SetFieldNameTag "label")
        (entry ["A", "B"] (unresolved "int") (some "`label:\"n\"`") none)
        ⟨"A", none⟩ ⟨"B", none⟩
    have hn := hkeep (by decide)
    rw [ha, hb, Option.map_some', Option.map_some', hn.1, hn.2]
    exact ⟨rfl, rfl⟩

theorem backquote_contains (c : Char) :
    ("`" : String).data.contains c = decide (c = "`".get 0) := by
  have : ("`" : String).data = ["`".get 0] := by decide
  rw [this]
  by_cases h : c = "`".get 0
  · simp [h]
  · simp [h]

theorem rdropWhile_cons_of_neg {p : Char → Bool} (x : Char) (hx : p x = false) :
    ∀ xs : List Char, List.rdropWhile p (x :: xs) = x :: List.rdropWhile p xs := by
  intro xs
  induction xs using List.reverseRecOn with
  | nil =>
    have : [x] = [] ++ [x] := rfl
    rw [this, List.rdropWhile_concat_neg _ _ _ (by simp [hx])]
    rfl
  | append_singleton ys y ih =>
    by_cases hy : p y = true
    · rw [← List.cons_append, List.rdropWhile_concat_pos _ _ _ hy,
        List.rdropWhile_concat_pos _ _ _ hy, ih]
    · rw [← List.cons_append, List.rdropWhile_concat_neg _ _ _ hy,
        List.rdropWhile_concat_neg _ _ _ hy]
      rfl

theorem Trim_data (s cutset : String) :
    (Trim s cutset).data =
      List.rdropWhile cutset.data.contains (s.data.dropWhile cutset.data.contains) := rfl

theorem Trim_self (b : String) (h1 : b.data.head? ≠ some ("`".get 0))
    (h2 : b.data.getLast? ≠ some ("`".get 0)) : Trim b "`" = b := by
  apply String.ext
  rw [Trim_data]
  have hd : b.data.dropWhile ("`" : String).data.contains = b.data := by
    cases hb : b.data with
    | nil => rfl
    | cons c cs =>
      rw [hb] at h1
      apply List.dropWhile_cons_of_neg
      rw [backquote_contains]
      simpa using h1
  rw [hd, List.rdropWhile_eq_self_iff]
  intro hne
  rw [backquote_contains]
  intro hlast
  apply h2
  rw [List.getLast?_eq_getLast _ hne]
  simpa using hlast

theorem Trim_backquoted (b : String) (h1 : b.data.head? ≠ some ("`".get 0))
    (h2 : b.data.getLast? ≠ some ("`".get 0)) : Trim ("`" ++ b ++ "`") "`" = b := by
  apply String.ext
  rw [Trim_data, String.data_append, String.data_append]
  have hq : ("`" : String).data = ["`".get 0] := by decide
  have hp : ("`" : String).data.contains ("`".get 0) = true := by decide
  rw [hq] at hp ⊢
  rw [List.append_assoc, List.singleton_append, List.dropWhile_cons_of_pos hp]
  have hself := Trim_self b h1 h2
  have hselfd : List.rdropWhile ["`".get 0].contains
      (b.data.dropWhile ["`".get 0].contains) = b.data := by
    have := congrArg String.data hself
    rw [Trim_data, hq] at this
    exact this
  cases hb : b.data with
  | nil => decide
  | cons c cs =>
    rw [hb] at h1 hselfd
    have hc : ["`".get 0].contains c = false := by
      rw [← hq, backquote_contains]
      simpa using h1
    rw [List.cons_append, List.dropWhile_cons_of_neg (Bool.eq_false_iff.mp hc),
      ← List.cons_append, List.rdropWhile_concat_pos _ _ _ hp]
    rw [List.dropWhile_cons_of_neg (Bool.eq_false_iff.mp hc)] at hselfd
    exact hselfd

theorem leadingPair_of_quote (tag : String) (h : tag.data.head? = some '"') :
    leadingPair (Trim tag "`").data = false := by
  cases htag : tag.data with
  | nil => rw [htag] at h; simp at h
  | cons c rest =>
    rw [htag] at h
    simp only [List.head?_cons, Option.some.injEq] at h
    subst h
    have hc : ("`" : String).data.contains '"' = false := by decide
    rw [Trim_data, htag, List.dropWhile_cons_of_neg (Bool.eq_false_iff.mp hc),
      rdropWhile_cons_of_neg _ hc]
    have hk : isKeyChar '"' = false := by decide
    simp [leadingPair, skipSpaces, scanKey, List.takeWhile_cons, hk]

/-- C20: only back quotes are trimmed from the two ends of the tag literal before the
lookup: for a tag body that neither starts nor ends with a back quote, the tag reader
gives the same mapping for the body in back quotes as for the bare body; a literal
that starts with a double quote keeps it, so no key is found and the mapping is
empty. -/
theorem C20_trim_backquotes :
    (∀ b : String, b.data.head? ≠ some ("`".get 0) → b.data.getLast? ≠ some ("`".get 0) →
      Trim ("`" ++ b ++ "`") "`" = b ∧
        parseStructTag ("`" ++ b ++ "`") = parseStructTag b) ∧
    (∀ tag : String, tag.data.head? = some '"' →
      (Trim tag "`").data.head? = some '"' ∧ parseStructTag tag = some [] ∧
        (tag.data.getLast? = some '"' → Trim tag "`" = tag)) ∧
    parseStructTag "\"json:\\\"id\\\"\"" = some [] ∧
    parseStructTag "`json:\"id\"`" = some [("json", "id")] := by
  refine ⟨?_, ?_, by decide, by decide⟩
  · intro b h1 h2
    refine ⟨Trim_backquoted b h1 h2, ?_⟩
    by_cases hb : b = ""
    · subst hb; decide
    · have hne : ("`" ++ b ++ "`" : String) ≠ "" := by
        intro h
        have := congrArg String.data h
        rw [String.data_append, String.data_append] at this
        have hq : ("`" : String).data = ["`".get 0] := by decide
        rw [hq] at this
        simp at this
      unfold parseStructTag
      rw [if_neg hne, if_neg hb]
      simp only [Trim_backquoted b h1 h2, Trim_self b h1 h2]
  · intro tag h
    refine ⟨?_, parseStructTag_of_no_leadingPair tag (leadingPair_of_quote tag h), ?_⟩
    swap
    · intro hl
      exact Trim_self tag (by rw [h]; decide) (by rw [hl]; decide)
    cases htag : tag.data with
    | nil => rw [htag] at h; simp at h
    | cons c rest =>
      rw [htag] at h
      simp only [List.head?_cons, Option.some.injEq] at h
      subst h
      have hc : ("`" : String).data.contains '"' = false := by decide
      rw [Trim_data, htag, List.dropWhile_cons_of_neg (Bool.eq_false_iff.mp hc),
        rdropWhile_cons_of_neg _ hc]
      rfl

/-- Witness of C20: the body `json:"id"` gives the same mapping with and without its
back quotes, and the double-quoted literal `"db:\"x\""` gives the empty mapping. -/
theorem C20_trim_backquotes_witness :
    parseStructTag ("`" ++ "json:\"id\"" ++ "`") = parseStructTag "json:\"id\"" ∧
      parseStructTag "\"db:\\\"x\\\"\"" = some [] :=
  ⟨(C20_trim_backquotes.1 "json:\"id\"" (by decide) (by decide)).2,
    (C20_trim_backquotes.2.1 "\"db:\\\"x\\\"\"" (by decide)).2.1⟩
end Godocs
